import Mathlib

/-!
Shallow embedding of the physical-memory management core of the capucho-os
kernel (src/memory/frame_allocator/mod.rs, src/memory/frame_allocator/bootstrap.rs,
src/memory/mod.rs, src/memory.rs, src/acpi.rs, src/acpi/handlers.rs).

Machine integers are modelled as Nat; the u64/usize arithmetic of the source
stays far below 2^64 on every reachable input, and u32 bit operations are
modelled with an explicit complement against 2^32 - 1 where Rust uses `!`.
Rust panics (expect/unwrap/panic, out-of-bounds indexing) are modelled as
`none` or as dedicated result constructors.  Physical frames are identified
by their 4 KiB-aligned start address or, inside the bitmap, by their frame
index (address divided by 0x1000), exactly as in the source.
-/

/-- Memory region classification of the firmware memory map
(bootloader crate, `bootinfo::MemoryRegionType`): the variants the kernel
matches on, plus representative variants that fall into its catch-all arms. -/
inductive MemoryRegionType where
  | Usable
  | InUse
  | Reserved
  | AcpiReclaimable
  | AcpiNvs
  | BadMemory
  | Kernel
  | KernelStack
  | PageTable
  | Bootloader
  | FrameZero
  | Empty
  deriving DecidableEq

/-- One region of the firmware memory map (bootloader crate,
`bootinfo::MemoryRegion`): a frame range (start inclusive, end exclusive, in
units of 4 KiB frames) and a region type. -/
structure MemoryRegion where
  start_frame_number : Nat
  end_frame_number : Nat
  region_type : MemoryRegionType
  deriving DecidableEq

/-- Byte address of the first frame of the region (`FrameRange::start_addr`,
which is `start_frame_number * 4096` in the bootloader crate). -/
def MemoryRegion.start_addr (r : MemoryRegion) : Nat :=
  r.start_frame_number * 0x1000

/-- Byte address one past the last frame of the region (`FrameRange::end_addr`). -/
def MemoryRegion.end_addr (r : MemoryRegion) : Nat :=
  r.end_frame_number * 0x1000

/-- Words of bitmap storage per chained block (frame_allocator/mod.rs). -/
def STORAGE_PER_BITMAP : Nat := 1022

/-- Frame bits per chained block (frame_allocator/mod.rs). -/
def BITS_PER_BITMAP : Nat := STORAGE_PER_BITMAP * 32

/-- One block of the chained frame bitmap (`FrameAllocatorBitmap`): the
`bits: [u32; STORAGE_PER_BITMAP]` array modelled as a function from array
index to the u32 word stored there.  Only indices below STORAGE_PER_BITMAP
are ever read or written, because the word index computed by
`frame_idx_to_parts` is `(idx % BITS_PER_BITMAP) / 32 < 1022`. -/
def FrameAllocatorBitmap : Type := Nat → Nat

/-- Fresh all-zero bitmap block (`FrameAllocatorBitmap::default`). -/
def zero_block : FrameAllocatorBitmap := fun _ => 0

/-- The steady-state allocator (`GlobalFrameAllocator`): the borrowed firmware
memory map, the chain of bitmap blocks (the `root` pointer plus the `next`
links, modelled as a list in chain order), and the `next_usable` cursor. -/
structure GlobalFrameAllocator where
  memory_map : List MemoryRegion
  root : List FrameAllocatorBitmap
  next_usable : Nat

/-- Translation of `frame_idx_to_parts`: (chain depth, u32 index inside the
block, bit mask).  The source computes the bit as `idx as u32 % 32`, which
equals `idx % 32` because 32 divides 2^32. -/
def frame_idx_to_parts (idx : Nat) : Nat × Nat × Nat :=
  (idx / BITS_PER_BITMAP, idx % BITS_PER_BITMAP / 32, 1 <<< (idx % 32))

/-- Translation of `get_bitmap`: walk `level` next-pointers from the root;
`none` models the null pointer that the callers turn into an `expect` panic. -/
def GlobalFrameAllocator.get_bitmap (a : GlobalFrameAllocator) (level : Nat) :
    Option FrameAllocatorBitmap :=
  a.root[level]?

/-- Translation of `is_used`; `none` models the `expect` panic raised when the
bitmap chain does not reach the frame's block. -/
def GlobalFrameAllocator.is_used (a : GlobalFrameAllocator) (idx : Nat) : Option Bool :=
  let p := frame_idx_to_parts idx
  (a.get_bitmap p.1).map fun block => decide (block p.2.1 &&& p.2.2 ≠ 0)

/-- Translation of `mark_used` (`bits[int] |= mask`). -/
def GlobalFrameAllocator.mark_used (a : GlobalFrameAllocator) (idx : Nat) :
    Option GlobalFrameAllocator :=
  let p := frame_idx_to_parts idx
  (a.get_bitmap p.1).map fun block =>
    { a with root := a.root.set p.1 (Function.update block p.2.1 (block p.2.1 ||| p.2.2)) }

/-- Bitwise complement at width 32, the meaning of Rust `!mask` at type u32
(the mask is always below 2^32, so xor against 2^32 - 1 is its complement). -/
def u32_not (m : Nat) : Nat := (2 ^ 32 - 1) ^^^ m

/-- Translation of `mark_unused` (`bits[int] &= !mask`). -/
def GlobalFrameAllocator.mark_unused (a : GlobalFrameAllocator) (idx : Nat) :
    Option GlobalFrameAllocator :=
  let p := frame_idx_to_parts idx
  (a.get_bitmap p.1).map fun block =>
    { a with root := a.root.set p.1 (Function.update block p.2.1 (block p.2.1 &&& u32_not p.2.2)) }

/-- Translation of `frame_in_use`: bitmap query by frame start address. -/
def GlobalFrameAllocator.frame_in_use (a : GlobalFrameAllocator) (addr : Nat) : Option Bool :=
  a.is_used (addr / 0x1000)

/-- Translation of `get_frame_ty`, verbatim: the linear scan keeps the
comparison `v.range.start_addr() >= addr && addr < v.range.end_addr()`
exactly as written on line 179 of frame_allocator/mod.rs. -/
def GlobalFrameAllocator.get_frame_ty (a : GlobalFrameAllocator) (addr : Nat) :
    Option MemoryRegionType :=
  (a.memory_map.find? fun v =>
      decide (v.start_addr ≥ addr) && decide (addr < v.end_addr)).map
    (·.region_type)

/-- Containment test a firmware region performs on a frame start address; the
classification the specification requires of the region-type query. -/
def MemoryRegion.contains (r : MemoryRegion) (addr : Nat) : Prop :=
  r.start_addr ≤ addr ∧ addr < r.end_addr

/-- Helper of `recalculate_next_usable`: indices of all frames of Usable
regions, in memory-map order (the `usable_frames` closure). -/
def usable_frames (memory_map : List MemoryRegion) : List Nat :=
  (memory_map.filter fun r => decide (r.region_type = MemoryRegionType.Usable)).flatMap
    fun r => List.range' r.start_frame_number (r.end_frame_number - r.start_frame_number)

/-- Search loop of `recalculate_next_usable`: the first index whose bitmap bit
is clear.  The outer `none` models the `expect` panic inside `is_used`;
`some none` means the iterator was exhausted. -/
def find_unused (a : GlobalFrameAllocator) : List Nat → Option (Option Nat)
  | [] => some none
  | i :: rest =>
    match a.is_used i with
    | none => none
    | some true => find_unused a rest
    | some false => some (some i)

/-- Translation of `recalculate_next_usable`: scan the usable frames whose
index is at or after the cursor (`skip_while`), looking for an unmarked one;
on success the cursor moves to it and the result is `true`. -/
def GlobalFrameAllocator.recalculate_next_usable (a : GlobalFrameAllocator) :
    Option (Bool × GlobalFrameAllocator) :=
  match find_unused a
      ((usable_frames a.memory_map).dropWhile fun i => decide (i < a.next_usable)) with
  | none => none
  | some none => some (false, a)
  | some (some i) => some (true, { a with next_usable := i })

/-- Translation of `allocate_frame` (the `FrameAllocator` impl): recalculate
the cursor, mark the frame used, and return its start address
(`PhysAddr::new(i * 0x1000)`).  The inner option is the Rust return value;
the outer option models panics. -/
def GlobalFrameAllocator.allocate_frame (a : GlobalFrameAllocator) :
    Option (Option Nat × GlobalFrameAllocator) :=
  match a.recalculate_next_usable with
  | none => none
  | some (false, a') => some (none, a')
  | some (true, a') =>
    match a'.mark_used a'.next_usable with
    | none => none
    | some a'' => some (some (a'.next_usable * 0x1000), a'')

/-- Translation of `deallocate_frame` (the `FrameDeallocator` impl). -/
def GlobalFrameAllocator.deallocate_frame (a : GlobalFrameAllocator) (addr : Nat) :
    Option GlobalFrameAllocator :=
  a.mark_unused (addr / 0x1000)

/-- A sequence of `allocate_frame` calls with no interleaved deallocation,
collecting the successfully returned frame addresses in order. -/
def allocate_seq : GlobalFrameAllocator → Nat → Option (List Nat × GlobalFrameAllocator)
  | a, 0 => some ([], a)
  | a, n + 1 =>
    match a.allocate_frame with
    | none => none
    | some (r, a') =>
      match allocate_seq a' n with
      | none => none
      | some (l, a'') => some (r.toList ++ l, a'')

/-- The simple linear allocator of src/memory.rs (`BootInfoFrameAllocator`). -/
structure BootInfoFrameAllocator where
  memory_map : List MemoryRegion
  next : Nat
  deriving DecidableEq

/-- Translation of `BootInfoFrameAllocator::usable_frames`: Usable regions,
their byte ranges stepped by 4096, aligned down to frame start addresses. -/
def BootInfoFrameAllocator.usable_frames (a : BootInfoFrameAllocator) : List Nat :=
  (a.memory_map.filter fun r => decide (r.region_type = MemoryRegionType.Usable)).flatMap
    fun r =>
      (List.range' r.start_addr ((r.end_addr - r.start_addr + 4095) / 4096) 4096).map
        fun addr => addr / 4096 * 4096

/-- Translation of `BootInfoFrameAllocator::allocate_frame`: the nth usable
frame, advancing the counter unconditionally. -/
def BootInfoFrameAllocator.allocate_frame (a : BootInfoFrameAllocator) :
    Option Nat × BootInfoFrameAllocator :=
  (a.usable_frames[a.next]?, { a with next := a.next + 1 })

/-- A sequence of `BootInfoFrameAllocator::allocate_frame` calls, collecting
every return value in order. -/
def bi_allocate_seq : BootInfoFrameAllocator → Nat → List (Option Nat) × BootInfoFrameAllocator
  | a, 0 => ([], a)
  | a, n + 1 =>
    let r := a.allocate_frame
    let s := bi_allocate_seq r.2 n
    (r.1 :: s.1, s.2)

/-- Unfolding step for allocate_seq, used to evaluate concrete runs one
allocation at a time. -/
theorem allocate_seq_succ {a a' a'' : GlobalFrameAllocator} {r : Option Nat}
    {l : List Nat} {n : Nat} (h1 : a.allocate_frame = some (r, a'))
    (h2 : allocate_seq a' n = some (l, a'')) :
    allocate_seq a (n + 1) = some (r.toList ++ l, a'') := by
  simp [allocate_seq, h1, h2]

/-- The memory map of the specification scenario: Usable 0x0 to 0x9000,
Reserved 0x9000 to 0xA000, Usable 0xA000 to 0x14000 (frame numbers 0-9,
9-10, 10-20). -/
def mm6 : List MemoryRegion :=
  [⟨0, 9, MemoryRegionType.Usable⟩, ⟨9, 10, MemoryRegionType.Reserved⟩,
   ⟨10, 20, MemoryRegionType.Usable⟩]

/-- Shorthand for updating word 0 of a bitmap block, the only word the
scenario of mm6 touches. -/
def c6u (b : FrameAllocatorBitmap) (v : Nat) : FrameAllocatorBitmap := Function.update b 0 v

/-- Bitmap block states reached in the mm6 scenario, one per allocation. -/
def c6b1 : FrameAllocatorBitmap := c6u zero_block 1
def c6b2 : FrameAllocatorBitmap := c6u c6b1 3
def c6b3 : FrameAllocatorBitmap := c6u c6b2 7
def c6b4 : FrameAllocatorBitmap := c6u c6b3 15
def c6b5 : FrameAllocatorBitmap := c6u c6b4 31
def c6b6 : FrameAllocatorBitmap := c6u c6b5 63
def c6b7 : FrameAllocatorBitmap := c6u c6b6 127
def c6b8 : FrameAllocatorBitmap := c6u c6b7 255
def c6b9 : FrameAllocatorBitmap := c6u c6b8 511
def c6b10 : FrameAllocatorBitmap := c6u c6b9 1535
set_option maxHeartbeats 4000000 in
/-- C6: on the scenario map, nine allocations return 0x0 through 0x8000 and the
tenth returns 0xA000, skipping the Reserved frame at 0x9000; this holds for the
GlobalFrameAllocator (bitmap scan) and the BootInfoFrameAllocator (nth usable). -/
theorem c6_scenario :
    (∃ a', allocate_seq ⟨mm6, [zero_block], 0⟩ 10 =
      some ([0x0, 0x1000, 0x2000, 0x3000, 0x4000, 0x5000, 0x6000, 0x7000, 0x8000, 0xA000], a')) ∧
    (bi_allocate_seq ⟨mm6, 0⟩ 10).1 =
      [some 0x0, some 0x1000, some 0x2000, some 0x3000, some 0x4000, some 0x5000,
       some 0x6000, some 0x7000, some 0x8000, some 0xA000] := by
  have h1 : GlobalFrameAllocator.allocate_frame ⟨mm6, [zero_block], 0⟩ =
      some (some 0x0, ⟨mm6, [c6b1], 0⟩) := rfl
  have h2 : GlobalFrameAllocator.allocate_frame ⟨mm6, [c6b1], 0⟩ =
      some (some 0x1000, ⟨mm6, [c6b2], 1⟩) := rfl
  have h3 : GlobalFrameAllocator.allocate_frame ⟨mm6, [c6b2], 1⟩ =
      some (some 0x2000, ⟨mm6, [c6b3], 2⟩) := rfl
  have h4 : GlobalFrameAllocator.allocate_frame ⟨mm6, [c6b3], 2⟩ =
      some (some 0x3000, ⟨mm6, [c6b4], 3⟩) := rfl
  have h5 : GlobalFrameAllocator.allocate_frame ⟨mm6, [c6b4], 3⟩ =
      some (some 0x4000, ⟨mm6, [c6b5], 4⟩) := rfl
  have h6 : GlobalFrameAllocator.allocate_frame ⟨mm6, [c6b5], 4⟩ =
      some (some 0x5000, ⟨mm6, [c6b6], 5⟩) := rfl
  have h7 : GlobalFrameAllocator.allocate_frame ⟨mm6, [c6b6], 5⟩ =
      some (some 0x6000, ⟨mm6, [c6b7], 6⟩) := rfl
  have h8 : GlobalFrameAllocator.allocate_frame ⟨mm6, [c6b7], 6⟩ =
      some (some 0x7000, ⟨mm6, [c6b8], 7⟩) := rfl
  have h9 : GlobalFrameAllocator.allocate_frame ⟨mm6, [c6b8], 7⟩ =
      some (some 0x8000, ⟨mm6, [c6b9], 8⟩) := rfl
  have h10 : GlobalFrameAllocator.allocate_frame ⟨mm6, [c6b9], 8⟩ =
      some (some 0xA000, ⟨mm6, [c6b10], 10⟩) := rfl
  have e10 : allocate_seq ⟨mm6, [c6b10], 10⟩ 0 = some ([], ⟨mm6, [c6b10], 10⟩) := rfl
  have e9 : allocate_seq ⟨mm6, [c6b9], 8⟩ 1 =
      some ([0xA000], ⟨mm6, [c6b10], 10⟩) := allocate_seq_succ h10 e10
  have e8 : allocate_seq ⟨mm6, [c6b8], 7⟩ 2 =
      some ([0x8000, 0xA000], ⟨mm6, [c6b10], 10⟩) := allocate_seq_succ h9 e9
  have e7 : allocate_seq ⟨mm6, [c6b7], 6⟩ 3 =
      some ([0x7000, 0x8000, 0xA000], ⟨mm6, [c6b10], 10⟩) := allocate_seq_succ h8 e8
  have e6 : allocate_seq ⟨mm6, [c6b6], 5⟩ 4 =
      some ([0x6000, 0x7000, 0x8000, 0xA000], ⟨mm6, [c6b10], 10⟩) := allocate_seq_succ h7 e7
  have e5 : allocate_seq ⟨mm6, [c6b5], 4⟩ 5 =
      some ([0x5000, 0x6000, 0x7000, 0x8000, 0xA000], ⟨mm6, [c6b10], 10⟩) :=
    allocate_seq_succ h6 e6
  have e4 : allocate_seq ⟨mm6, [c6b4], 3⟩ 6 =
      some ([0x4000, 0x5000, 0x6000, 0x7000, 0x8000, 0xA000], ⟨mm6, [c6b10], 10⟩) :=
    allocate_seq_succ h5 e5
  have e3 : allocate_seq ⟨mm6, [c6b3], 2⟩ 7 =
      some ([0x3000, 0x4000, 0x5000, 0x6000, 0x7000, 0x8000, 0xA000], ⟨mm6, [c6b10], 10⟩) :=
    allocate_seq_succ h4 e4
  have e2 : allocate_seq ⟨mm6, [c6b2], 1⟩ 8 =
      some ([0x2000, 0x3000, 0x4000, 0x5000, 0x6000, 0x7000, 0x8000, 0xA000],
        ⟨mm6, [c6b10], 10⟩) := allocate_seq_succ h3 e3
  have e1 : allocate_seq ⟨mm6, [c6b1], 0⟩ 9 =
      some ([0x1000, 0x2000, 0x3000, 0x4000, 0x5000, 0x6000, 0x7000, 0x8000, 0xA000],
        ⟨mm6, [c6b10], 10⟩) := allocate_seq_succ h2 e2
  have e0 : allocate_seq ⟨mm6, [zero_block], 0⟩ 10 =
      some ([0x0, 0x1000, 0x2000, 0x3000, 0x4000, 0x5000, 0x6000, 0x7000, 0x8000, 0xA000],
        ⟨mm6, [c6b10], 10⟩) := allocate_seq_succ h1 e1
  exact ⟨⟨_, e0⟩, by decide⟩

/-- C2: get_frame_ty does not classify by containment.  The frame at address
0x1000 is contained in the first (Usable) region of mm6, yet the query
returns the type of the second (Reserved) region: the scan on line 179 of
frame_allocator/mod.rs compares `start_addr >= addr` instead of
`start_addr <= addr`. -/
theorem c2_get_frame_ty_reversed_bound :
    (mm6.get? 0 = some ⟨0, 9, MemoryRegionType.Usable⟩) ∧
    MemoryRegion.contains ⟨0, 9, MemoryRegionType.Usable⟩ 0x1000 ∧
    GlobalFrameAllocator.get_frame_ty ⟨mm6, [zero_block], 0⟩ 0x1000 =
      some MemoryRegionType.Reserved ∧
    some MemoryRegionType.Reserved ≠ some MemoryRegionType.Usable := by
  refine ⟨rfl, ?_, rfl, by decide⟩
  constructor <;> norm_num [MemoryRegion.start_addr, MemoryRegion.end_addr, MemoryRegion.contains]

/-- BITS_PER_BITMAP is a multiple of the word width. -/
theorem dvd32 : (32 : Nat) ∣ BITS_PER_BITMAP :=
  ⟨1022, by norm_num [BITS_PER_BITMAP, STORAGE_PER_BITMAP]⟩

/-- The mask computed by frame_idx_to_parts is a power of two. -/
theorem mask_eq_two_pow (idx : Nat) : (frame_idx_to_parts idx).2.2 = 2 ^ (idx % 32) := by
  simp [frame_idx_to_parts, Nat.one_shiftLeft]

/-- Testing a word against a power-of-two mask is testing one bit. -/
theorem and_two_pow_ne_zero (w b : Nat) : (w &&& 2 ^ b ≠ 0) ↔ w.testBit b := by
  cases h : w.testBit b <;>
    simp [Nat.and_two_pow, h, Nat.pos_iff_ne_zero.mp (Nat.two_pow_pos b)]

/-- The (block, word, bit) decomposition of a frame index is injective. -/
theorem frame_idx_to_parts_inj {i j : Nat}
    (h1 : i / BITS_PER_BITMAP = j / BITS_PER_BITMAP)
    (h2 : i % BITS_PER_BITMAP / 32 = j % BITS_PER_BITMAP / 32)
    (h3 : i % 32 = j % 32) : i = j := by
  have hi := Nat.mod_mod_of_dvd i dvd32
  have hj := Nat.mod_mod_of_dvd j dvd32
  have d1 := Nat.div_add_mod i BITS_PER_BITMAP
  have d2 := Nat.div_add_mod j BITS_PER_BITMAP
  have d3 := Nat.div_add_mod (i % BITS_PER_BITMAP) 32
  have d4 := Nat.div_add_mod (j % BITS_PER_BITMAP) 32
  simp only [BITS_PER_BITMAP, STORAGE_PER_BITMAP] at *
  omega

/-- Arithmetic normal form of is_used. -/
theorem is_used_eq (a : GlobalFrameAllocator) (j : Nat) :
    a.is_used j = (a.root[j / BITS_PER_BITMAP]?).map
      (fun block => decide (block (j % BITS_PER_BITMAP / 32) &&& 2 ^ (j % 32) ≠ 0)) := by
  simp [GlobalFrameAllocator.is_used, GlobalFrameAllocator.get_bitmap, frame_idx_to_parts,
    Nat.one_shiftLeft]

/-- Arithmetic normal form of mark_used. -/
theorem mark_used_eq (a : GlobalFrameAllocator) (i : Nat) :
    a.mark_used i = (a.root[i / BITS_PER_BITMAP]?).map
      (fun block => GlobalFrameAllocator.mk a.memory_map
        (a.root.set (i / BITS_PER_BITMAP) (Function.update block (i % BITS_PER_BITMAP / 32)
          (block (i % BITS_PER_BITMAP / 32) ||| 2 ^ (i % 32)))) a.next_usable) := by
  simp [GlobalFrameAllocator.mark_used, GlobalFrameAllocator.get_bitmap, frame_idx_to_parts,
    Nat.one_shiftLeft]

/-- Arithmetic normal form of mark_unused. -/
theorem mark_unused_eq (a : GlobalFrameAllocator) (i : Nat) :
    a.mark_unused i = (a.root[i / BITS_PER_BITMAP]?).map
      (fun block => GlobalFrameAllocator.mk a.memory_map
        (a.root.set (i / BITS_PER_BITMAP) (Function.update block (i % BITS_PER_BITMAP / 32)
          (block (i % BITS_PER_BITMAP / 32) &&& u32_not (2 ^ (i % 32))))) a.next_usable) := by
  simp [GlobalFrameAllocator.mark_unused, GlobalFrameAllocator.get_bitmap, frame_idx_to_parts,
    Nat.one_shiftLeft]

/-- Marking a bit used changes neither the memory map, the cursor, nor the
chain length. -/
theorem mark_used_fields {a a' : GlobalFrameAllocator} {i : Nat} (h : a.mark_used i = some a') :
    a'.memory_map = a.memory_map ∧ a'.next_usable = a.next_usable ∧
      a'.root.length = a.root.length := by
  rw [mark_used_eq, Option.map_eq_some'] at h
  obtain ⟨blk, hblk, rfl⟩ := h
  simp

/-- Marking a bit unused changes neither the memory map, the cursor, nor the
chain length. -/
theorem mark_unused_fields {a a' : GlobalFrameAllocator} {i : Nat}
    (h : a.mark_unused i = some a') :
    a'.memory_map = a.memory_map ∧ a'.next_usable = a.next_usable ∧
      a'.root.length = a.root.length := by
  rw [mark_unused_eq, Option.map_eq_some'] at h
  obtain ⟨blk, hblk, rfl⟩ := h
  simp

/-- mark_used touches no bit other than the one of its argument. -/
theorem mark_used_is_used_other {a a' : GlobalFrameAllocator} {i j : Nat}
    (hij : i ≠ j) (h : a.mark_used i = some a') : a'.is_used j = a.is_used j := by
  rw [mark_used_eq, Option.map_eq_some'] at h
  obtain ⟨blk, hblk, rfl⟩ := h
  rw [is_used_eq, is_used_eq]
  dsimp only
  by_cases hb : j / BITS_PER_BITMAP = i / BITS_PER_BITMAP
  · have hlt : i / BITS_PER_BITMAP < a.root.length := (List.getElem?_eq_some.mp hblk).1
    rw [hb, List.getElem?_set_self hlt, hblk]
    simp only [Option.map_some']
    by_cases hw : j % BITS_PER_BITMAP / 32 = i % BITS_PER_BITMAP / 32
    · rw [hw, Function.update_same]
      have hbit : i % 32 ≠ j % 32 := fun hc =>
        hij (frame_idx_to_parts_inj hb.symm hw.symm hc)
      congr 1
      rw [decide_eq_decide, and_two_pow_ne_zero, and_two_pow_ne_zero, Nat.testBit_or,
        Nat.testBit_two_pow_of_ne hbit]
      simp
    · rw [Function.update_noteq hw]
  · rw [List.getElem?_set_ne fun hc => hb hc.symm]

/-- mark_used sets the bit of its argument. -/
theorem mark_used_is_used_self {a a' : GlobalFrameAllocator} {i : Nat}
    (h : a.mark_used i = some a') : a'.is_used i = some true := by
  rw [mark_used_eq, Option.map_eq_some'] at h
  obtain ⟨blk, hblk, rfl⟩ := h
  have hlt : i / BITS_PER_BITMAP < a.root.length := (List.getElem?_eq_some.mp hblk).1
  rw [is_used_eq]
  dsimp only
  rw [List.getElem?_set_self hlt]
  simp only [Option.map_some', Function.update_same]
  have hs : ((blk (i % BITS_PER_BITMAP / 32) ||| 2 ^ (i % 32)) &&& 2 ^ (i % 32) ≠ 0) := by
    rw [and_two_pow_ne_zero, Nat.testBit_or, Nat.testBit_two_pow_self]
    simp
  simp [hs]

/-- mark_unused touches no bit other than the one of its argument. -/
theorem mark_unused_is_used_other {a a' : GlobalFrameAllocator} {i j : Nat}
    (hij : i ≠ j) (h : a.mark_unused i = some a') : a'.is_used j = a.is_used j := by
  rw [mark_unused_eq, Option.map_eq_some'] at h
  obtain ⟨blk, hblk, rfl⟩ := h
  rw [is_used_eq, is_used_eq]
  dsimp only
  by_cases hb : j / BITS_PER_BITMAP = i / BITS_PER_BITMAP
  · have hlt : i / BITS_PER_BITMAP < a.root.length := (List.getElem?_eq_some.mp hblk).1
    rw [hb, List.getElem?_set_self hlt, hblk]
    simp only [Option.map_some']
    by_cases hw : j % BITS_PER_BITMAP / 32 = i % BITS_PER_BITMAP / 32
    · rw [hw, Function.update_same]
      have hbit : i % 32 ≠ j % 32 := fun hc =>
        hij (frame_idx_to_parts_inj hb.symm hw.symm hc)
      have hj32 : j % 32 < 32 := Nat.mod_lt _ (by norm_num)
      congr 1
      rw [decide_eq_decide, and_two_pow_ne_zero, and_two_pow_ne_zero, u32_not,
        Nat.testBit_and, Nat.testBit_xor, Nat.testBit_two_pow_sub_one,
        Nat.testBit_two_pow_of_ne hbit]
      simp [hj32]
    · rw [Function.update_noteq hw]
  · rw [List.getElem?_set_ne fun hc => hb hc.symm]

/-- mark_unused clears the bit of its argument. -/
theorem mark_unused_is_used_self {a a' : GlobalFrameAllocator} {i : Nat}
    (h : a.mark_unused i = some a') : a'.is_used i = some false := by
  rw [mark_unused_eq, Option.map_eq_some'] at h
  obtain ⟨blk, hblk, rfl⟩ := h
  have hlt : i / BITS_PER_BITMAP < a.root.length := (List.getElem?_eq_some.mp hblk).1
  have hi32 : i % 32 < 32 := Nat.mod_lt _ (by norm_num)
  rw [is_used_eq]
  dsimp only
  rw [List.getElem?_set_self hlt]
  simp only [Option.map_some', Function.update_same]
  have hs : ¬ ((blk (i % BITS_PER_BITMAP / 32) &&& u32_not (2 ^ (i % 32))) &&&
      2 ^ (i % 32) ≠ 0) := by
    rw [and_two_pow_ne_zero, u32_not, Nat.testBit_and, Nat.testBit_xor,
      Nat.testBit_two_pow_sub_one, Nat.testBit_two_pow_self]
    simp [hi32]
  simp [hs]

/-- C9: for every pair of distinct in-bounds frame indices i and j, mark_used i
succeeds, makes is_used i true and leaves is_used j unchanged, and mark_unused i
succeeds, makes is_used i false and leaves is_used j unchanged: each bitmap
operation touches exactly the one bit located by the frame_idx_to_parts
decomposition across the chained blocks. -/
theorem c9_single_bit_effect (a : GlobalFrameAllocator) (i j : Nat)
    (hi : i < a.root.length * BITS_PER_BITMAP) (hj : j < a.root.length * BITS_PER_BITMAP)
    (hij : i ≠ j) :
    (∃ a', a.mark_used i = some a' ∧ a'.is_used i = some true ∧ a'.is_used j = a.is_used j) ∧
    (∃ a', a.mark_unused i = some a' ∧ a'.is_used i = some false ∧
      a'.is_used j = a.is_used j) := by
  have hdiv : i / BITS_PER_BITMAP < a.root.length := Nat.div_lt_of_lt_mul (Nat.mul_comm a.root.length BITS_PER_BITMAP ▸ hi)
  obtain ⟨blk, hblk⟩ : ∃ blk, a.root[i / BITS_PER_BITMAP]? = some blk := by
    rw [List.getElem?_eq_getElem hdiv]; exact ⟨_, rfl⟩
  constructor
  · obtain ⟨a', ha'⟩ : ∃ a', a.mark_used i = some a' := by
      rw [mark_used_eq, hblk]; exact ⟨_, rfl⟩
    exact ⟨a', ha', mark_used_is_used_self ha', mark_used_is_used_other hij ha'⟩
  · obtain ⟨a', ha'⟩ : ∃ a', a.mark_unused i = some a' := by
      rw [mark_unused_eq, hblk]; exact ⟨_, rfl⟩
    exact ⟨a', ha', mark_unused_is_used_self ha', mark_unused_is_used_other hij ha'⟩

/-- Witness for c9_single_bit_effect at a one-block bitmap with i = 0, j = 1. -/
theorem c9_witness :
    (∃ a', GlobalFrameAllocator.mark_used ⟨[], [zero_block], 0⟩ 0 = some a' ∧
      a'.is_used 0 = some true ∧ a'.is_used 1 =
        GlobalFrameAllocator.is_used ⟨[], [zero_block], 0⟩ 1) ∧
    (∃ a', GlobalFrameAllocator.mark_unused ⟨[], [zero_block], 0⟩ 0 = some a' ∧
      a'.is_used 0 = some false ∧ a'.is_used 1 =
        GlobalFrameAllocator.is_used ⟨[], [zero_block], 0⟩ 1) :=
  c9_single_bit_effect ⟨[], [zero_block], 0⟩ 0 1 (by decide) (by decide) (by decide)

/-- is_used reads only the bitmap chain. -/
theorem is_used_congr {a b : GlobalFrameAllocator} (h : a.root = b.root) (j : Nat) :
    a.is_used j = b.is_used j := by
  rw [is_used_eq, is_used_eq, h]

/-- is_used misses (panics) exactly when the chain is too short. -/
theorem is_used_none_iff (a : GlobalFrameAllocator) (j : Nat) :
    a.is_used j = none ↔ a.root.length ≤ j / BITS_PER_BITMAP := by
  rw [is_used_eq, Option.map_eq_none', List.getElem?_eq_none_iff]

/-- Marking a bit used never clears an already-set bit. -/
theorem mark_used_mono {a a' : GlobalFrameAllocator} {i : Nat} (h : a.mark_used i = some a')
    (j : Nat) (hj : a.is_used j = some true) : a'.is_used j = some true := by
  by_cases hij : i = j
  · subst hij; exact mark_used_is_used_self h
  · rw [mark_used_is_used_other hij h]; exact hj

/-- Membership in the usable-frames iterator is containment in a Usable region. -/
theorem mem_usable_frames {memory_map : List MemoryRegion} {i : Nat} :
    i ∈ usable_frames memory_map ↔ ∃ r ∈ memory_map,
      r.region_type = MemoryRegionType.Usable ∧
      r.start_frame_number ≤ i ∧ i < r.end_frame_number := by
  simp only [usable_frames, List.mem_flatMap, List.mem_filter, List.mem_range'_1,
    decide_eq_true_eq]
  constructor
  · rintro ⟨r, ⟨hr, hty⟩, hle, hlt⟩
    exact ⟨r, hr, hty, hle, by omega⟩
  · rintro ⟨r, hr, hty, hle, hlt⟩
    exact ⟨r, ⟨hr, hty⟩, hle, by omega⟩

/-- A successful find_unused returns a member of the scanned list whose bit is
clear. -/
theorem find_unused_spec {a : GlobalFrameAllocator} :
    ∀ {l : List Nat} {i : Nat}, find_unused a l = some (some i) →
      i ∈ l ∧ a.is_used i = some false := by
  intro l
  induction l with
  | nil => intro i h; simp [find_unused] at h
  | cons x rest ih =>
    intro i h
    rw [find_unused] at h
    cases hx : a.is_used x with
    | none => rw [hx] at h; exact absurd h (by simp)
    | some b =>
      rw [hx] at h
      cases b with
      | true =>
        have := ih h
        exact ⟨List.mem_cons_of_mem x this.1, this.2⟩
      | false =>
        simp only [Option.some.injEq] at h
        cases h
        exact ⟨List.mem_cons_self x rest, hx⟩

/-- A successful recalculation moves only the cursor, to an unmarked usable
frame. -/
theorem recalculate_true_spec {a a' : GlobalFrameAllocator}
    (h : a.recalculate_next_usable = some (true, a')) :
    a' = ⟨a.memory_map, a.root, a'.next_usable⟩ ∧
      a'.next_usable ∈ usable_frames a.memory_map ∧
      a.is_used a'.next_usable = some false := by
  unfold GlobalFrameAllocator.recalculate_next_usable at h
  cases hf : find_unused a
      ((usable_frames a.memory_map).dropWhile fun i => decide (i < a.next_usable)) with
  | none => rw [hf] at h; exact absurd h (by simp)
  | some o =>
    rw [hf] at h
    cases o with
    | none => exact absurd h (by simp)
    | some i =>
      simp only [Option.some.injEq, Prod.mk.injEq] at h
      obtain ⟨-, rfl⟩ := h
      have hs := find_unused_spec hf
      have hmem : i ∈ usable_frames a.memory_map :=
        (List.dropWhile_sublist _).mem hs.1
      exact ⟨rfl, hmem, hs.2⟩

/-- A failed recalculation leaves the allocator untouched. -/
theorem recalculate_false_spec {a a' : GlobalFrameAllocator}
    (h : a.recalculate_next_usable = some (false, a')) : a' = a := by
  unfold GlobalFrameAllocator.recalculate_next_usable at h
  cases hf : find_unused a
      ((usable_frames a.memory_map).dropWhile fun i => decide (i < a.next_usable)) with
  | none => rw [hf] at h; exact absurd h (by simp)
  | some o =>
    rw [hf] at h
    cases o with
    | none => simp only [Option.some.injEq, Prod.mk.injEq] at h; exact h.2.symm
    | some i => simp at h

/-- Inversion of a successful allocation: the returned address is 0x1000 times
an unmarked usable frame index, which the new state marks used; set bits are
preserved and the chain length and memory map are unchanged. -/
theorem allocate_frame_some_spec {a a' : GlobalFrameAllocator} {f : Nat}
    (h : a.allocate_frame = some (some f, a')) :
    ∃ i, f = i * 0x1000 ∧ i ∈ usable_frames a.memory_map ∧
      a.is_used i = some false ∧ a'.memory_map = a.memory_map ∧
      a'.root.length = a.root.length ∧ a'.is_used i = some true ∧
      ∀ j, a.is_used j = some true → a'.is_used j = some true := by
  unfold GlobalFrameAllocator.allocate_frame at h
  cases hr : a.recalculate_next_usable with
  | none => rw [hr] at h; exact absurd h (by simp)
  | some p =>
    rw [hr] at h
    obtain ⟨b, a1⟩ := p
    cases b with
    | false => simp at h
    | true =>
      dsimp only at h
      cases hm : a1.mark_used a1.next_usable with
      | none => rw [hm] at h; exact absurd h (by simp)
      | some a2 =>
        rw [hm] at h
        simp only [Option.some.injEq, Prod.mk.injEq] at h
        obtain ⟨hf, rfl⟩ := h
        have hs := recalculate_true_spec hr
        have hroot : a1.root = a.root := by rw [hs.1]
        have hmm : a1.memory_map = a.memory_map := by rw [hs.1]
        have hfld := mark_used_fields hm
        refine ⟨a1.next_usable, hf.symm, hs.2.1, hs.2.2, ?_, ?_, ?_, ?_⟩
        · rw [hfld.1, hmm]
        · rw [hfld.2.2, hroot]
        · exact mark_used_is_used_self hm
        · intro j hj
          exact mark_used_mono hm j (by rw [is_used_congr hroot]; exact hj)

/-- Inversion of an exhausted allocation: the state is unchanged. -/
theorem allocate_frame_none_spec {a a' : GlobalFrameAllocator}
    (h : a.allocate_frame = some (none, a')) : a' = a := by
  unfold GlobalFrameAllocator.allocate_frame at h
  cases hr : a.recalculate_next_usable with
  | none => rw [hr] at h; exact absurd h (by simp)
  | some p =>
    rw [hr] at h
    obtain ⟨b, a1⟩ := p
    cases b with
    | false =>
      simp only [Option.some.injEq, Prod.mk.injEq] at h
      rw [← h.2]
      exact recalculate_false_spec hr
    | true =>
      dsimp only at h
      cases hm : a1.mark_used a1.next_usable with
      | none => rw [hm] at h; exact absurd h (by simp)
      | some a2 => rw [hm] at h; simp at h

/-- Invariants of a run of allocations: the memory map and chain length are
unchanged, set bits are preserved, and every returned address is 0x1000 times
a usable frame index that was unmarked at the start of the run and is marked
at its end. -/
theorem allocate_seq_spec :
    ∀ {n : Nat} {a a' : GlobalFrameAllocator} {l : List Nat},
      allocate_seq a n = some (l, a') →
      a'.memory_map = a.memory_map ∧ a'.root.length = a.root.length ∧
      (∀ j, a.is_used j = some true → a'.is_used j = some true) ∧
      (∀ f ∈ l, ∃ i, f = i * 0x1000 ∧ i ∈ usable_frames a.memory_map ∧
        a.is_used i = some false ∧ a'.is_used i = some true) := by
  intro n
  induction n with
  | zero =>
    intro a a' l h
    rw [allocate_seq] at h
    simp only [Option.some.injEq, Prod.mk.injEq] at h
    obtain ⟨rfl, rfl⟩ := h
    exact ⟨rfl, rfl, fun j hj => hj, by simp⟩
  | succ n ih =>
    intro a a' l h
    rw [allocate_seq] at h
    cases ha : a.allocate_frame with
    | none => rw [ha] at h; exact absurd h (by simp)
    | some p =>
      rw [ha] at h
      obtain ⟨r, a1⟩ := p
      dsimp only at h
      cases hs : allocate_seq a1 n with
      | none => rw [hs] at h; exact absurd h (by simp)
      | some q =>
        rw [hs] at h
        obtain ⟨l1, a2⟩ := q
        dsimp only at h
        simp only [Option.some.injEq, Prod.mk.injEq] at h
        obtain ⟨rfl, rfl⟩ := h
        have IH := ih hs
        cases r with
        | none =>
          obtain rfl := allocate_frame_none_spec ha
          simpa using IH
        | some f =>
          obtain ⟨i, rfl, hiu, hif, hmm1, hlen1, hit, hmono1⟩ :=
            allocate_frame_some_spec ha
          have hnone : ∀ j, a1.is_used j = none ↔ a.is_used j = none := by
            intro j
            rw [is_used_none_iff, is_used_none_iff, hlen1]
          refine ⟨IH.1.trans hmm1, IH.2.1.trans hlen1, ?_, ?_⟩
          · intro j hj
            exact IH.2.2.1 j (hmono1 j hj)
          · intro g hg
            rcases (by simpa using hg : g = i * 0x1000 ∨ g ∈ l1) with rfl | hg2
            · exact ⟨i, rfl, hiu, hif, IH.2.2.1 i hit⟩
            · obtain ⟨i2, rfl, hi2u, hi2f, hi2t⟩ := IH.2.2.2 g hg2
              refine ⟨i2, rfl, by rwa [hmm1] at hi2u, ?_, hi2t⟩
              cases hai2 : a.is_used i2 with
              | none =>
                rw [← hnone i2] at hai2
                rw [hai2] at hi2f
                exact absurd hi2f (by simp)
              | some b =>
                cases b with
                | false => rfl
                | true =>
                  rw [hmono1 i2 hai2] at hi2f
                  exact absurd hi2f (by simp)

/-- Frames returned by a run of allocations are pairwise distinct. -/
theorem allocate_seq_pairwise :
    ∀ {n : Nat} {a a' : GlobalFrameAllocator} {l : List Nat},
      allocate_seq a n = some (l, a') → l.Pairwise (· ≠ ·) := by
  intro n
  induction n with
  | zero =>
    intro a a' l h
    rw [allocate_seq] at h
    simp only [Option.some.injEq, Prod.mk.injEq] at h
    obtain ⟨rfl, -⟩ := h
    exact List.Pairwise.nil
  | succ n ih =>
    intro a a' l h
    rw [allocate_seq] at h
    cases ha : a.allocate_frame with
    | none => rw [ha] at h; exact absurd h (by simp)
    | some p =>
      rw [ha] at h
      obtain ⟨r, a1⟩ := p
      dsimp only at h
      cases hs : allocate_seq a1 n with
      | none => rw [hs] at h; exact absurd h (by simp)
      | some q =>
        rw [hs] at h
        obtain ⟨l1, a2⟩ := q
        dsimp only at h
        simp only [Option.some.injEq, Prod.mk.injEq] at h
        obtain ⟨rfl, rfl⟩ := h
        cases r with
        | none => simpa using ih hs
        | some f =>
          obtain ⟨i, rfl, -, -, -, -, hit, -⟩ := allocate_frame_some_spec ha
          have hspec := allocate_seq_spec hs
          simp only [Option.toList_some, List.singleton_append]
          refine List.Pairwise.cons ?_ (ih hs)
          intro g hg he
          obtain ⟨i2, rfl, -, hi2f, -⟩ := hspec.2.2.2 g hg
          obtain rfl : i = i2 := Nat.eq_of_mul_eq_mul_right (by norm_num) he
          rw [hit] at hi2f
          exact absurd hi2f (by simp)

/-- C1: any run of allocate_frame calls with no interleaved deallocation (from
any allocator state, in particular from an initialized one) returns pairwise
distinct frame addresses, each lying inside a region the firmware memory map
marks Usable. -/
theorem c1_allocate_distinct_usable (a : GlobalFrameAllocator) (n : Nat)
    (l : List Nat) (a' : GlobalFrameAllocator) (h : allocate_seq a n = some (l, a')) :
    l.Pairwise (· ≠ ·) ∧
    ∀ f ∈ l, ∃ r ∈ a.memory_map, r.region_type = MemoryRegionType.Usable ∧
      r.start_addr ≤ f ∧ f < r.end_addr := by
  refine ⟨allocate_seq_pairwise h, ?_⟩
  intro f hf
  obtain ⟨i, rfl, hiu, -, -⟩ := (allocate_seq_spec h).2.2.2 f hf
  obtain ⟨r, hr, hty, hle, hlt⟩ := mem_usable_frames.mp hiu
  refine ⟨r, hr, hty, ?_, ?_⟩
  · exact Nat.mul_le_mul_right 0x1000 hle
  · exact Nat.mul_lt_mul_right (by norm_num) |>.mpr hlt

/-- Witness for c1_allocate_distinct_usable: two allocations on a two-frame
Usable region return 0x0 and 0x1000. -/
theorem c1_witness :
    ∃ l a', allocate_seq ⟨[⟨0, 2, MemoryRegionType.Usable⟩], [zero_block], 0⟩ 2 =
        some (l, a') ∧
      (l.Pairwise (· ≠ ·) ∧
        ∀ f ∈ l, ∃ r ∈ [(⟨0, 2, MemoryRegionType.Usable⟩ : MemoryRegion)],
          r.region_type = MemoryRegionType.Usable ∧ r.start_addr ≤ f ∧ f < r.end_addr) := by
  refine ⟨_, _, rfl, ?_⟩
  exact c1_allocate_distinct_usable ⟨[⟨0, 2, MemoryRegionType.Usable⟩], [zero_block], 0⟩ 2 _ _ rfl

/-- Page table flags used by the kernel, a subset of the x86_64 crate's
PageTableFlags bit set. -/
structure PageTableFlags where
  present : Bool
  writable : Bool
  no_cache : Bool
  write_through : Bool
  deriving DecidableEq

/-- Union of two flag sets (bitwise or of the flag bits). -/
def PageTableFlags.union (f g : PageTableFlags) : PageTableFlags :=
  ⟨f.present || g.present, f.writable || g.writable, f.no_cache || g.no_cache,
    f.write_through || g.write_through⟩

/-- Empty flag set (`PageTableFlags::empty`). -/
def PageTableFlags.empty : PageTableFlags := ⟨false, false, false, false⟩

/-- Errors of the external mapper's identity_map (x86_64 crate `MapToError`);
only the variants this code can observe. -/
inductive MapToError where
  | FrameAllocationFailed
  | PageAlreadyMapped
  deriving DecidableEq

/-- The active page table, modelled as a partial map from page start address
to the mapped frame's start address and flags.  The x86_64 crate's internal
page-table walk, flushes, and its allocation of intermediate page-table
frames are external to this repository and are not modelled: identity_map
installs the entry when the page is free and fails with PageAlreadyMapped
otherwise. -/
def PageTableMap : Type := Nat → Option (Nat × PageTableFlags)

/-- The paging context of memory/mod.rs: the active mapper plus the global
frame allocator; the value held by the PAGING_CTX singleton. -/
structure PagingContext where
  mapper : PageTableMap
  allocator : GlobalFrameAllocator

/-- Translation of the UnmapGuard of memory/mod.rs: the mapped page and
whether releasing it must also deallocate the backing frame. -/
structure UnmapGuard where
  page : Nat
  unmap_frame : Bool
  deriving DecidableEq

/-- Result of mmap_dev: success with a guard and the updated context, a
returned MapToError, or a panic (the explicit region-type `panic!` or the
`expect` inside the bitmap query). -/
inductive MmapDevResult where
  | ok (guard : UnmapGuard) (ctx : PagingContext)
  | err (e : MapToError)
  | panicked

/-- The extra flags chosen by mmap_dev's match on the frame's region type;
`none` is the `panic!` arm.  KernelStack is accepted only when `acpi` is
true (the bios discovery workaround), with no extra flags. -/
def mmap_dev_extra_flags (ty : MemoryRegionType) (acpi : Bool) : Option PageTableFlags :=
  match ty, acpi with
  | MemoryRegionType.Reserved, _ => some ⟨false, true, false, false⟩
  | MemoryRegionType.FrameZero, _ => some ⟨false, true, false, false⟩
  | MemoryRegionType.KernelStack, true => some PageTableFlags.empty
  | _, _ => none

/-- Translation of mmap_dev (memory/mod.rs): classify the frame via
get_frame_ty (a missing classification becomes Err(FrameAllocationFailed)),
pick the extra flags or panic, identity map the frame with PRESENT, NO_CACHE
and WRITE_THROUGH plus the extra flags, and return a guard whose unmap_frame
flag records that the frame was not counted in use by the allocator.  As in
the source the frame_in_use query happens after the identity mapping; the
modelled identity_map leaves the allocator untouched (see PageTableMap). -/
def mmap_dev (ctx : PagingContext) (frame : Nat) (acpi : Bool) : MmapDevResult :=
  match ctx.allocator.get_frame_ty frame with
  | none => MmapDevResult.err MapToError.FrameAllocationFailed
  | some ty =>
    match mmap_dev_extra_flags ty acpi with
    | none => MmapDevResult.panicked
    | some extra =>
      match ctx.mapper frame with
      | some _ => MmapDevResult.err MapToError.PageAlreadyMapped
      | none =>
        match ctx.allocator.frame_in_use frame with
        | none => MmapDevResult.panicked
        | some inuse =>
          MmapDevResult.ok ⟨frame, !inuse⟩
            ⟨Function.update ctx.mapper frame
              (some (frame, PageTableFlags.union ⟨true, false, true, true⟩ extra)),
             ctx.allocator⟩

/-- Result of the unmap of memory/mod.rs: success, a returned UnmapError, or
a panic inside deallocate_frame's bitmap access. -/
inductive MemUnmapResult where
  | ok (ctx : PagingContext)
  | err
  | panicked

/-- Translation of `unmap` (memory/mod.rs): remove the guard's page from the
mapper (erroring when it is not mapped) and deallocate the frame that backed
it only when the guard requests it. -/
def Memory.unmap (ctx : PagingContext) (guard : UnmapGuard) : MemUnmapResult :=
  match ctx.mapper guard.page with
  | none => MemUnmapResult.err
  | some fr =>
    if guard.unmap_frame then
      match ctx.allocator.deallocate_frame fr.1 with
      | none => MemUnmapResult.panicked
      | some alloc' =>
        MemUnmapResult.ok ⟨Function.update ctx.mapper guard.page none, alloc'⟩
    else MemUnmapResult.ok ⟨Function.update ctx.mapper guard.page none, ctx.allocator⟩

/-- Combined state of the ACPI mapping registry (acpi.rs `Handler`) plus the
paging context it calls into: mapping_refs is the BTreeMap from frame start
address to (reference count, unmap guard). -/
structure HandlerState where
  ctx : PagingContext
  mapping_refs : Nat → Option (Nat × UnmapGuard)

/-- Translation of `Handler::map`: bump the count of an already-registered
frame, otherwise mmap_dev it (with acpi set) and insert it with count 1.
`none` models the `expect` panic on a mmap_dev error and the panics inside
mmap_dev itself. -/
def Handler.map (s : HandlerState) (frame : Nat) : Option HandlerState :=
  match s.mapping_refs frame with
  | some e =>
    some ⟨s.ctx, Function.update s.mapping_refs frame (some (e.1 + 1, e.2))⟩
  | none =>
    match mmap_dev s.ctx frame true with
    | MmapDevResult.ok guard ctx' =>
      some ⟨ctx', Function.update s.mapping_refs frame (some (1, guard))⟩
    | _ => none

/-- Translation of `Handler::unmap`: decrement the count of the page's entry
(panicking when there is none) and, on reaching zero, remove the entry and
tear the mapping down.  `none` models the two `expect` panics. -/
def Handler.unmap (s : HandlerState) (page : Nat) : Option HandlerState :=
  match s.mapping_refs page with
  | none => none
  | some e =>
    if e.1 - 1 = 0 then
      match Memory.unmap s.ctx e.2 with
      | MemUnmapResult.ok ctx' =>
        some ⟨ctx', Function.update s.mapping_refs page none⟩
      | _ => none
    else some ⟨s.ctx, Function.update s.mapping_refs page (some (e.1 - 1, e.2))⟩

/-- Frame start address of the frame containing a byte address
(`PhysFrame::containing_address`). -/
def frame_containing (addr : Nat) : Nat := addr / 4096 * 4096

/-- The inclusive frame range of acpi/handlers.rs as the list of frame start
addresses from `start` to `endf` (`PhysFrame::range_inclusive`). -/
def frame_range_inclusive (start endf : Nat) : List Nat :=
  List.range' start ((endf - start) / 4096 + 1) 4096

/-- Map every frame of a list through the registry, stopping at a panic. -/
def map_frames : HandlerState → List Nat → Option HandlerState
  | s, [] => some s
  | s, f :: rest =>
    match Handler.map s f with
    | none => none
    | some s' => map_frames s' rest

/-- The fields of the acpi crate's PhysicalMapping that the kernel writes and
later reads back in unmap_physical_region. -/
structure PhysicalMapping where
  physical_start : Nat
  region_length : Nat
  mapped_length : Nat
  deriving DecidableEq

/-- Translation of `AcpiHandler::map_physical_region`: map every frame from
the one containing physical_address to the one containing
physical_address + size, inclusive; mapped_length spans those frames. -/
def map_physical_region (s : HandlerState) (physical_address size : Nat) :
    Option (HandlerState × PhysicalMapping) :=
  let start := frame_containing physical_address
  let endf := frame_containing (physical_address + size)
  match map_frames s (frame_range_inclusive start endf) with
  | none => none
  | some s' => some (s', ⟨start, size, endf + 0x1000 - start⟩)

/-- Unmap every page of a list through the registry, stopping at a panic. -/
def unmap_frames : HandlerState → List Nat → Option HandlerState
  | s, [] => some s
  | s, p :: rest =>
    match Handler.unmap s p with
    | none => none
    | some s' => unmap_frames s' rest

/-- Translation of `AcpiHandler::unmap_physical_region`: release every page
from physical_start up to (exclusive) physical_start + mapped_length. -/
def unmap_physical_region (s : HandlerState) (region : PhysicalMapping) :
    Option HandlerState :=
  unmap_frames s (List.range' region.physical_start (region.mapped_length / 4096) 4096)

/-- Inversion of a successful mmap_dev: the allocator is untouched, the guard
records the page and the prior frame_in_use answer, and the mapper gains
exactly the identity entry for the frame. -/
theorem mmap_dev_ok_spec {ctx ctx' : PagingContext} {g : UnmapGuard} {f : Nat} {acpi : Bool}
    (h : mmap_dev ctx f acpi = MmapDevResult.ok g ctx') :
    ctx'.allocator = ctx.allocator ∧ g.page = f ∧
      (∃ inuse, ctx.allocator.frame_in_use f = some inuse ∧ g.unmap_frame = !inuse) ∧
      ctx.mapper f = none ∧
      ∃ fl, ctx'.mapper = Function.update ctx.mapper f (some (f, fl)) := by
  unfold mmap_dev at h
  cases hty : ctx.allocator.get_frame_ty f with
  | none => rw [hty] at h; exact absurd h (by simp)
  | some ty =>
    rw [hty] at h
    dsimp only at h
    cases hex : mmap_dev_extra_flags ty acpi with
    | none => rw [hex] at h; exact absurd h (by simp)
    | some extra =>
      rw [hex] at h
      dsimp only at h
      cases hmp : ctx.mapper f with
      | some e => rw [hmp] at h; exact absurd h (by simp)
      | none =>
        rw [hmp] at h
        dsimp only at h
        cases hiu : ctx.allocator.frame_in_use f with
        | none => rw [hiu] at h; exact absurd h (by simp)
        | some inuse =>
          rw [hiu] at h
          dsimp only at h
          cases h
          exact ⟨rfl, rfl, ⟨inuse, rfl, rfl⟩, rfl, ⟨_, rfl⟩⟩

/-- Inversion of a successful unmap: the page entry held a frame, the memory
map of the allocator is preserved, and when the guard did not request frame
deallocation the allocator is fully unchanged. -/
theorem memory_unmap_ok_spec {ctx ctx'' : PagingContext} {g : UnmapGuard}
    (h : Memory.unmap ctx g = MemUnmapResult.ok ctx'') :
    ctx''.allocator.memory_map = ctx.allocator.memory_map ∧
      (g.unmap_frame = false → ctx''.allocator = ctx.allocator) := by
  unfold Memory.unmap at h
  cases hmp : ctx.mapper g.page with
  | none => rw [hmp] at h; exact absurd h (by simp)
  | some fr =>
    rw [hmp] at h
    dsimp only at h
    cases hg : g.unmap_frame with
    | false =>
      rw [hg] at h
      simp only [if_neg Bool.false_ne_true] at h
      cases h
      exact ⟨rfl, fun _ => rfl⟩
    | true =>
      rw [hg] at h
      simp only [if_pos rfl] at h
      cases hd : ctx.allocator.deallocate_frame fr.1 with
      | none => rw [hd] at h; exact absurd h (by simp)
      | some alloc' =>
        rw [hd] at h
        cases h
        refine ⟨?_, by simp⟩
        exact (mark_unused_fields hd).1

/-- C10: a frame lying in a Usable firmware region does not always panic in
mmap_dev.  Frame 0x1000 is contained in the Usable region 0x0-0x9000 of mm6
and acpi is false, yet mmap_dev succeeds: the reversed comparison in
get_frame_ty classifies the frame as Reserved (the following region), so the
panic arm for Usable frames is never reached. -/
theorem c10_usable_frame_mapped_no_panic :
    ((⟨0, 9, MemoryRegionType.Usable⟩ : MemoryRegion) ∈ mm6 ∧
      MemoryRegion.contains ⟨0, 9, MemoryRegionType.Usable⟩ 0x1000) ∧
    GlobalFrameAllocator.get_frame_ty ⟨mm6, [zero_block], 0⟩ 0x1000 =
      some MemoryRegionType.Reserved ∧
    ∃ guard ctx', mmap_dev ⟨fun _ => none, ⟨mm6, [zero_block], 0⟩⟩ 0x1000 false =
      MmapDevResult.ok guard ctx' := by
  refine ⟨⟨by decide, ?_⟩, rfl, ⟨_, _, rfl⟩⟩
  constructor <;>
    norm_num [MemoryRegion.contains, MemoryRegion.start_addr, MemoryRegion.end_addr]

/-- Mapper state after mmap_dev maps frame 0x1000 in the C3 scenario. -/
def c3map1 : PageTableMap :=
  Function.update (fun _ => none) 0x1000 (some (0x1000, ⟨true, true, true, true⟩))

/-- Paging context after the C3 scenario's mmap_dev call. -/
def c3ctx1 : PagingContext := ⟨c3map1, ⟨mm6, [c6b2], 1⟩⟩

/-- Paging context after the C3 scenario's unmap call. -/
def c3ctx2 : PagingContext := ⟨Function.update c3map1 0x1000 none, ⟨mm6, [c6b2], 1⟩⟩

/-- C3 counterexample: on mm6, allocate two frames (0x0 and 0x1000), then
mmap_dev the allocator-obtained general-RAM frame 0x1000 (accepted because
the get_frame_ty bug classifies it as Reserved; it was counted in use before
the mapping) and release the mapping.  The claim says releasing returns the
frame to the free pool; instead its used bit stays set and the next
allocation skips it and returns 0x2000. -/
theorem c3_counterexample :
    allocate_seq ⟨mm6, [zero_block], 0⟩ 2 = some ([0x0, 0x1000], ⟨mm6, [c6b2], 1⟩) ∧
    mmap_dev ⟨fun _ => none, ⟨mm6, [c6b2], 1⟩⟩ 0x1000 false =
      MmapDevResult.ok ⟨0x1000, false⟩ c3ctx1 ∧
    Memory.unmap c3ctx1 ⟨0x1000, false⟩ = MemUnmapResult.ok c3ctx2 ∧
    c3ctx2.allocator.frame_in_use 0x1000 = some true ∧
    ∃ a3, GlobalFrameAllocator.allocate_frame c3ctx2.allocator =
      some (some 0x2000, ⟨mm6, a3, 2⟩) := by
  have h1 : GlobalFrameAllocator.allocate_frame ⟨mm6, [zero_block], 0⟩ =
      some (some 0x0, ⟨mm6, [c6b1], 0⟩) := rfl
  have h2 : GlobalFrameAllocator.allocate_frame ⟨mm6, [c6b1], 0⟩ =
      some (some 0x1000, ⟨mm6, [c6b2], 1⟩) := rfl
  have e2 : allocate_seq ⟨mm6, [c6b2], 1⟩ 0 = some ([], ⟨mm6, [c6b2], 1⟩) := rfl
  exact ⟨allocate_seq_succ h1 (allocate_seq_succ h2 e2), rfl, rfl, rfl, ⟨_, rfl⟩⟩

/-- C3 (amended): after a device mapping is created and then released,
(i) a frame that lies in no Usable firmware region is never returned by a
subsequent allocation run, and (ii) a frame counted in use before the mapping
(for example one obtained from allocate_frame) stays counted in use after the
release - the release does not return it to the free pool, and subsequent
allocation runs never return it either (deallocation on release happens only
for frames that were not counted in use before the mapping). -/
theorem c3_amended (ctx : PagingContext) (f : Nat) (acpi : Bool) (g : UnmapGuard)
    (ctx' ctx'' : PagingContext)
    (hmap : mmap_dev ctx f acpi = MmapDevResult.ok g ctx')
    (hunmap : Memory.unmap ctx' g = MemUnmapResult.ok ctx'') :
    ((∀ r ∈ ctx.allocator.memory_map, r.region_type = MemoryRegionType.Usable →
        ¬ r.contains f) →
      ∀ n l a', allocate_seq ctx''.allocator n = some (l, a') → f ∉ l) ∧
    (ctx.allocator.frame_in_use f = some true →
      ctx''.allocator.frame_in_use f = some true ∧
      ∀ n l a', allocate_seq ctx''.allocator n = some (l, a') → f ∉ l) := by
  obtain ⟨halloc1, hpage, ⟨inuse, hinuse, hguard⟩, -, -⟩ := mmap_dev_ok_spec hmap
  obtain ⟨hmm2, hkeep⟩ := memory_unmap_ok_spec hunmap
  have hmm : ctx''.allocator.memory_map = ctx.allocator.memory_map := by
    rw [hmm2, halloc1]
  constructor
  · intro hnone n l a' hrun hfl
    obtain ⟨i, rfl, hiu, -, -⟩ := (allocate_seq_spec hrun).2.2.2 _ hfl
    rw [hmm] at hiu
    obtain ⟨r, hr, hty, hle, hlt⟩ := mem_usable_frames.mp hiu
    refine hnone r hr hty ⟨?_, ?_⟩
    · exact Nat.mul_le_mul_right 0x1000 hle
    · exact Nat.mul_lt_mul_right (by norm_num) |>.mpr hlt
  · intro hin
    rw [hinuse] at hin
    obtain rfl : inuse = true := by simpa using hin
    have hfalse : g.unmap_frame = false := by rw [hguard]; rfl
    have halloc : ctx''.allocator = ctx.allocator := by rw [hkeep hfalse, halloc1]
    rw [halloc]
    refine ⟨hinuse, ?_⟩
    intro n l a' hrun hfl
    obtain ⟨i, heq, -, hif, -⟩ := (allocate_seq_spec hrun).2.2.2 _ hfl
    have : ctx.allocator.is_used i = some true := by
      have : f / 0x1000 = i := by rw [heq]; exact Nat.mul_div_cancel i (by norm_num)
      rw [← this]
      exact hinuse
    rw [this] at hif
    exact absurd hif (by simp)

/-- Witness for c3_amended: map and release the Reserved frame 0x0 on a
one-region map; afterwards no allocation run can return it. -/
theorem c3_amended_witness :
    ∃ g c1 c2,
      mmap_dev ⟨fun _ => none, ⟨[⟨0, 1, MemoryRegionType.Reserved⟩], [zero_block], 0⟩⟩
          0 false = MmapDevResult.ok g c1 ∧
      Memory.unmap c1 g = MemUnmapResult.ok c2 ∧
      ((∀ r ∈ [(⟨0, 1, MemoryRegionType.Reserved⟩ : MemoryRegion)],
          r.region_type = MemoryRegionType.Usable → ¬ r.contains 0) →
        ∀ n l a', allocate_seq c2.allocator n = some (l, a') → 0 ∉ l) := by
  refine ⟨_, _, _, rfl, rfl, ?_⟩
  exact (c3_amended ⟨fun _ => none, ⟨[⟨0, 1, MemoryRegionType.Reserved⟩], [zero_block], 0⟩⟩
    0 false _ _ _ rfl rfl).1

/-- A bitmap bit that can be read can also be cleared. -/
theorem mark_unused_isSome_of_is_used {a : GlobalFrameAllocator} {i : Nat} {b : Bool}
    (h : a.is_used i = some b) : ∃ a', a.mark_unused i = some a' := by
  rw [is_used_eq, Option.map_eq_some'] at h
  obtain ⟨blk, hblk, -⟩ := h
  rw [mark_unused_eq, hblk]
  exact ⟨_, rfl⟩

/-- A frame whose bitmap bit is reachable can be deallocated. -/
theorem deallocate_frame_isSome {a : GlobalFrameAllocator} {addr : Nat} {b : Bool}
    (h : a.frame_in_use addr = some b) : ∃ a', a.deallocate_frame addr = some a' := by
  unfold GlobalFrameAllocator.frame_in_use at h
  unfold GlobalFrameAllocator.deallocate_frame
  exact mark_unused_isSome_of_is_used h

/-- A mapped page with a deallocatable frame can always be unmapped, and the
unmap removes exactly that page's entry. -/
theorem memory_unmap_ok_exists {ctx : PagingContext} {g : UnmapGuard}
    {fr : Nat × PageTableFlags} (hm : ctx.mapper g.page = some fr)
    (hd : ∃ a', ctx.allocator.deallocate_frame fr.1 = some a') :
    ∃ ctx2, Memory.unmap ctx g = MemUnmapResult.ok ctx2 ∧
      ctx2.mapper = Function.update ctx.mapper g.page none := by
  unfold Memory.unmap
  rw [hm]
  dsimp only
  cases hb : g.unmap_frame with
  | false =>
    refine ⟨⟨Function.update ctx.mapper g.page none, ctx.allocator⟩, ?_, rfl⟩
    simp
  | true =>
    obtain ⟨a', hda⟩ := hd
    refine ⟨⟨Function.update ctx.mapper g.page none, a'⟩, ?_, rfl⟩
    simp [hda]

/-- C4: mapping the same frame twice through the registry and unmapping twice
equals mapping once and unmapping once: the frame is identity-mapped after
the first map, still mapped after the second map (which changes no
page-table state at all), still mapped after the first unmap, and unmapped
after the second unmap; the final state equals that of the map-once,
unmap-once run. -/
theorem c4_refcount_idempotent (s : HandlerState) (f : Nat) (g : UnmapGuard)
    (ctx1 : PagingContext) (hfresh : s.mapping_refs f = none)
    (hmap : mmap_dev s.ctx f true = MmapDevResult.ok g ctx1) :
    ∃ s1 s2 s3 s4 t1,
      Handler.map s f = some s1 ∧
      Handler.map s1 f = some s2 ∧
      Handler.unmap s2 f = some s3 ∧
      Handler.unmap s3 f = some s4 ∧
      Handler.unmap s1 f = some t1 ∧
      (s1.ctx.mapper f).isSome ∧
      s2.ctx = s1.ctx ∧ (s2.ctx.mapper f).isSome ∧
      (s3.ctx.mapper f).isSome ∧
      s4.ctx.mapper f = none ∧
      s4 = t1 := by
  obtain ⟨halloc1, hpage, ⟨inuse, hinuse, -⟩, -, ⟨fl, hmap1⟩⟩ := mmap_dev_ok_spec hmap
  have hm1 : ctx1.mapper f = some (f, fl) := by rw [hmap1, Function.update_same]
  have hmg : ctx1.mapper g.page = some (f, fl) := by rw [hpage]; exact hm1
  have hdeal : ∃ a', ctx1.allocator.deallocate_frame f = some a' := by
    rw [halloc1]
    exact deallocate_frame_isSome hinuse
  obtain ⟨ctx2, hmu, hctx2map⟩ := memory_unmap_ok_exists hmg hdeal
  have h1 : Handler.map s f = some ⟨ctx1, Function.update s.mapping_refs f (some (1, g))⟩ := by
    simp [Handler.map, hfresh, hmap]
  have h2 : Handler.map ⟨ctx1, Function.update s.mapping_refs f (some (1, g))⟩ f =
      some ⟨ctx1, Function.update (Function.update s.mapping_refs f (some (1, g))) f
        (some (2, g))⟩ := by
    simp [Handler.map, Function.update_same]
  have h3 : Handler.unmap ⟨ctx1, Function.update (Function.update s.mapping_refs f
        (some (1, g))) f (some (2, g))⟩ f =
      some ⟨ctx1, Function.update (Function.update (Function.update s.mapping_refs f
        (some (1, g))) f (some (2, g))) f (some (1, g))⟩ := by
    simp [Handler.unmap, Function.update_same]
  have h4 : Handler.unmap ⟨ctx1, Function.update (Function.update (Function.update
        s.mapping_refs f (some (1, g))) f (some (2, g))) f (some (1, g))⟩ f =
      some ⟨ctx2, Function.update (Function.update (Function.update (Function.update
        s.mapping_refs f (some (1, g))) f (some (2, g))) f (some (1, g))) f none⟩ := by
    simp [Handler.unmap, Function.update_same, hmu]
  have h5 : Handler.unmap ⟨ctx1, Function.update s.mapping_refs f (some (1, g))⟩ f =
      some ⟨ctx2, Function.update (Function.update s.mapping_refs f (some (1, g))) f
        none⟩ := by
    simp [Handler.unmap, Function.update_same, hmu]
  refine ⟨_, _, _, _, _, h1, h2, h3, h4, h5, ?_, rfl, ?_, ?_, ?_, ?_⟩
  · simp [hm1]
  · simp [hm1]
  · simp [hm1]
  · rw [hctx2map, hpage, Function.update_same]
  · have hreg : Function.update (Function.update (Function.update (Function.update
        s.mapping_refs f (some (1, g))) f (some (2, g))) f (some (1, g))) f
        (none : Option (Nat × UnmapGuard)) =
        Function.update (Function.update s.mapping_refs f (some (1, g))) f none := by
      simp [Function.update_idem]
    exact congrArg (HandlerState.mk ctx2) hreg

/-- Concrete registry state for the c4 witness: empty registry and page
table over a single Reserved frame. -/
def c4s0 : HandlerState :=
  ⟨⟨fun _ => none, ⟨[⟨0, 1, MemoryRegionType.Reserved⟩], [zero_block], 0⟩⟩, fun _ => none⟩

/-- Witness for c4_refcount_idempotent on the Reserved frame 0. -/
theorem c4_witness :
    ∃ s1 s2 s3 s4 t1,
      Handler.map c4s0 0 = some s1 ∧
      Handler.map s1 0 = some s2 ∧
      Handler.unmap s2 0 = some s3 ∧
      Handler.unmap s3 0 = some s4 ∧
      Handler.unmap s1 0 = some t1 ∧
      (s1.ctx.mapper 0).isSome ∧
      s2.ctx = s1.ctx ∧ (s2.ctx.mapper 0).isSome ∧
      (s3.ctx.mapper 0).isSome ∧
      s4.ctx.mapper 0 = none ∧
      s4 = t1 :=
  c4_refcount_idempotent c4s0 0 ⟨0, true⟩
    ⟨Function.update (fun _ => none) 0 (some (0, ⟨true, true, true, true⟩)),
      ⟨[⟨0, 1, MemoryRegionType.Reserved⟩], [zero_block], 0⟩⟩ rfl rfl

/-- Model of spin::Once::call_once as used for the PAGING_CTX singleton
(memory/mod.rs line 21, filled exactly once from lib.rs init).  Per the spin
crate's contract the closure runs only when the cell is still empty; a later
call returns the already-stored value unchanged and never panics.  The cell
is the Option of the stored paging context. -/
def call_once (state : Option PagingContext) (f : Unit → PagingContext) :
    Option PagingContext :=
  match state with
  | some v => some v
  | none => some (f ())

/-- C8 counterexample: a second initialization of the paging-context
singleton does not fail loudly; call_once completes normally, silently
discards the new context and keeps the first one. -/
theorem c8_counterexample :
    ∃ c1 c2 : PagingContext, c1 ≠ c2 ∧
      call_once (call_once none (fun _ => c1)) (fun _ => c2) = some c1 := by
  refine ⟨⟨fun _ => none, ⟨[], [], 0⟩⟩, ⟨fun _ => none, ⟨[], [], 1⟩⟩, ?_, rfl⟩
  intro h
  have h0 := congrArg (fun c => c.allocator.next_usable) h
  simp at h0

/-- C8 (amended): the singleton is initialized at most once - the first
call_once stores the new context, and any later call_once is silently
ignored, keeping the existing context (never overwriting it and never
running the new initializer's result into the cell). -/
theorem c8_amended (c : PagingContext) (f : Unit → PagingContext) :
    call_once none f = some (f ()) ∧ call_once (some c) f = some c :=
  ⟨rfl, rfl⟩

/-- Reference count the registry holds for a frame (0 when absent). -/
def regCount (s : HandlerState) (f : Nat) : Nat :=
  match s.mapping_refs f with
  | none => 0
  | some e => e.1

/-- Registry well-formedness: every entry has a positive count, its guard
names its own frame, and the frame is currently identity-mapped. -/
def RegInv (s : HandlerState) : Prop :=
  ∀ f rc g, s.mapping_refs f = some (rc, g) →
    1 ≤ rc ∧ g.page = f ∧ ∃ fl, s.ctx.mapper f = some (f, fl)

/-- regCount only reads the registry entry. -/
theorem regCount_congr {s s' : HandlerState} {f : Nat}
    (h : s'.mapping_refs f = s.mapping_refs f) : regCount s' f = regCount s f := by
  unfold regCount
  rw [h]

/-- A positive reference count exhibits the stored entry. -/
theorem regCount_entry {s : HandlerState} {f rc : Nat} (h : regCount s f = rc)
    (hrc : 1 ≤ rc) : ∃ g, s.mapping_refs f = some (rc, g) := by
  unfold regCount at h
  cases hr : s.mapping_refs f with
  | none => rw [hr] at h; dsimp only at h; omega
  | some e =>
    rw [hr] at h
    dsimp only at h
    exact ⟨e.2, by rw [← h]⟩

/-- Effect of one registry map call: the invariant is preserved, the frame's
count rises by one, and no other frame's entry or mapping changes. -/
theorem handler_map_step {s s' : HandlerState} {f : Nat}
    (h : Handler.map s f = some s') (hinv : RegInv s) :
    RegInv s' ∧ regCount s' f = regCount s f + 1 ∧
      ∀ p, p ≠ f → s'.mapping_refs p = s.mapping_refs p ∧
        s'.ctx.mapper p = s.ctx.mapper p := by
  unfold Handler.map at h
  cases hr : s.mapping_refs f with
  | some e =>
    rw [hr] at h
    dsimp only at h
    cases h
    obtain ⟨he1, hpg, hfl⟩ := hinv f e.1 e.2 (by rw [hr])
    refine ⟨?_, ?_, ?_⟩
    · intro q rc g hq
      dsimp only at hq ⊢
      by_cases hqf : q = f
      · subst hqf
        rw [Function.update_same] at hq
        cases hq
        exact ⟨by omega, hpg, hfl⟩
      · rw [Function.update_noteq hqf] at hq
        exact hinv q rc g hq
    · unfold regCount
      dsimp only
      rw [Function.update_same, hr]
    · intro p hp
      exact ⟨Function.update_noteq hp _ _, rfl⟩
  | none =>
    rw [hr] at h
    dsimp only at h
    cases hm : mmap_dev s.ctx f true with
    | ok guard ctx' =>
      rw [hm] at h
      cases h
      obtain ⟨-, hpage, -, -, ⟨fl, hmap1⟩⟩ := mmap_dev_ok_spec hm
      refine ⟨?_, ?_, ?_⟩
      · intro q rc g hq
        dsimp only at hq ⊢
        by_cases hqf : q = f
        · subst hqf
          rw [Function.update_same] at hq
          cases hq
          refine ⟨by omega, hpage, fl, ?_⟩
          rw [hmap1, Function.update_same]
        · rw [Function.update_noteq hqf] at hq
          obtain ⟨h1, h2, fl', h3⟩ := hinv q rc g hq
          refine ⟨h1, h2, fl', ?_⟩
          rw [hmap1, Function.update_noteq hqf]
          exact h3
      · unfold regCount
        dsimp only
        rw [Function.update_same, hr]
      · intro p hp
        refine ⟨Function.update_noteq hp _ _, ?_⟩
        dsimp only
        rw [hmap1, Function.update_noteq hp]
    | err e => rw [hm] at h; exact absurd h (by simp)
    | panicked => rw [hm] at h; exact absurd h (by simp)

/-- A successful unmap call removes exactly the guard's page from the mapper. -/
theorem memory_unmap_ok_mapper {ctx ctx2 : PagingContext} {g : UnmapGuard}
    (h : Memory.unmap ctx g = MemUnmapResult.ok ctx2) :
    ctx2.mapper = Function.update ctx.mapper g.page none := by
  unfold Memory.unmap at h
  cases hm : ctx.mapper g.page with
  | none => rw [hm] at h; exact absurd h (by simp)
  | some fr =>
    rw [hm] at h
    dsimp only at h
    cases hb : g.unmap_frame with
    | false =>
      rw [hb] at h
      simp only [if_neg Bool.false_ne_true] at h
      cases h
      rfl
    | true =>
      rw [hb] at h
      simp only [if_pos rfl] at h
      cases hd : ctx.allocator.deallocate_frame fr.1 with
      | none => rw [hd] at h; exact absurd h (by simp)
      | some alloc' => rw [hd] at h; cases h; rfl

/-- Effect of one registry unmap call: the invariant is preserved, the page's
count drops by one, and no other frame's entry or mapping changes. -/
theorem handler_unmap_step {s s' : HandlerState} {p : Nat}
    (h : Handler.unmap s p = some s') (hinv : RegInv s) :
    RegInv s' ∧ regCount s' p = regCount s p - 1 ∧
      ∀ q, q ≠ p → s'.mapping_refs q = s.mapping_refs q ∧
        s'.ctx.mapper q = s.ctx.mapper q := by
  unfold Handler.unmap at h
  cases hr : s.mapping_refs p with
  | none => rw [hr] at h; exact absurd h (by simp)
  | some e =>
    rw [hr] at h
    dsimp only at h
    obtain ⟨he1, hpg, ⟨fl, hmp⟩⟩ := hinv p e.1 e.2 (by rw [hr])
    by_cases hz : e.1 - 1 = 0
    · rw [if_pos hz] at h
      cases hm : Memory.unmap s.ctx e.2 with
      | ok ctx' =>
        rw [hm] at h
        cases h
        have hmap' := memory_unmap_ok_mapper hm
        refine ⟨?_, ?_, ?_⟩
        · intro q rc g hq
          dsimp only at hq ⊢
          by_cases hqp : q = p
          · subst hqp
            rw [Function.update_same] at hq
            exact absurd hq (by simp)
          · rw [Function.update_noteq hqp] at hq
            obtain ⟨h1, h2, fl', h3⟩ := hinv q rc g hq
            refine ⟨h1, h2, fl', ?_⟩
            rw [hmap', hpg, Function.update_noteq hqp]
            exact h3
        · unfold regCount
          dsimp only
          rw [Function.update_same, hr]
          dsimp only
          omega
        · intro q hq
          refine ⟨Function.update_noteq hq _ _, ?_⟩
          dsimp only
          rw [hmap', hpg, Function.update_noteq hq]
      | err => rw [hm] at h; exact absurd h (by simp)
      | panicked => rw [hm] at h; exact absurd h (by simp)
    · rw [if_neg hz] at h
      cases h
      refine ⟨?_, ?_, ?_⟩
      · intro q rc g hq
        dsimp only at hq ⊢
        by_cases hqp : q = p
        · subst hqp
          rw [Function.update_same] at hq
          cases hq
          exact ⟨by omega, hpg, fl, hmp⟩
        · rw [Function.update_noteq hqp] at hq
          exact hinv q rc g hq
      · unfold regCount
        dsimp only
        rw [Function.update_same, hr]
      · intro q hq
        exact ⟨Function.update_noteq hq _ _, rfl⟩

/-- Effect of mapping a list of frames: the invariant is preserved, each
frame's count rises by its multiplicity in the list, and frames outside the
list keep their entry and their mapping. -/
theorem map_frames_spec :
    ∀ {L : List Nat} {s s' : HandlerState}, map_frames s L = some s' → RegInv s →
      RegInv s' ∧ ∀ f, regCount s' f = regCount s f + L.count f ∧
        (f ∉ L → s'.mapping_refs f = s.mapping_refs f ∧
          s'.ctx.mapper f = s.ctx.mapper f) := by
  intro L
  induction L with
  | nil =>
    intro s s' h hinv
    rw [map_frames] at h
    cases h
    exact ⟨hinv, fun f => ⟨by simp [List.count_nil], fun _ => ⟨rfl, rfl⟩⟩⟩
  | cons x rest ih =>
    intro s s' h hinv
    rw [map_frames] at h
    cases hx : Handler.map s x with
    | none => rw [hx] at h; exact absurd h (by simp)
    | some s1 =>
      rw [hx] at h
      dsimp only at h
      obtain ⟨hinv1, hcnt1, hoth1⟩ := handler_map_step hx hinv
      obtain ⟨hinv', hrest⟩ := ih h hinv1
      refine ⟨hinv', fun f => ⟨?_, ?_⟩⟩
      · rw [(hrest f).1, List.count_cons]
        by_cases hfx : f = x
        · subst hfx
          rw [hcnt1]
          simp
          omega
        · rw [regCount_congr (hoth1 f hfx).1]
          simp [Ne.symm hfx]
      · intro hf
        have hfx : f ≠ x := fun hc => hf (hc ▸ List.mem_cons_self x rest)
        have hfr : f ∉ rest := fun hc => hf (List.mem_cons_of_mem x hc)
        obtain ⟨ha, hb⟩ := (hrest f).2 hfr
        obtain ⟨hc, hd⟩ := hoth1 f hfx
        exact ⟨ha.trans hc, hb.trans hd⟩

/-- Effect of unmapping a list of pages: the invariant is preserved and each
page's count drops by its multiplicity in the list. -/
theorem unmap_frames_spec :
    ∀ {L : List Nat} {s s' : HandlerState}, unmap_frames s L = some s' → RegInv s →
      RegInv s' ∧ ∀ f, regCount s' f = regCount s f - L.count f := by
  intro L
  induction L with
  | nil =>
    intro s s' h hinv
    rw [unmap_frames] at h
    cases h
    exact ⟨hinv, fun f => by simp [List.count_nil]⟩
  | cons x rest ih =>
    intro s s' h hinv
    rw [unmap_frames] at h
    cases hx : Handler.unmap s x with
    | none => rw [hx] at h; exact absurd h (by simp)
    | some s1 =>
      rw [hx] at h
      dsimp only at h
      obtain ⟨hinv1, hcnt1, hoth1⟩ := handler_unmap_step hx hinv
      obtain ⟨hinv', hrest⟩ := ih h hinv1
      refine ⟨hinv', fun f => ?_⟩
      rw [hrest f, List.count_cons]
      by_cases hfx : f = x
      · subst hfx
        rw [hcnt1]
        simp [Nat.sub_sub]
        omega
      · rw [regCount_congr (hoth1 f hfx).1]
        simp [Ne.symm hfx]

/-- Frame-containing addresses are frame-aligned. -/
theorem frame_containing_dvd (x : Nat) : 4096 ∣ frame_containing x :=
  Dvd.intro_left (x / 4096) rfl

/-- frame_containing is monotone. -/
theorem frame_containing_mono {a b : Nat} (h : a ≤ b) :
    frame_containing a ≤ frame_containing b :=
  Nat.mul_le_mul_right 4096 (Nat.div_le_div_right h)

/-- The lower end of an inclusive frame range is a member. -/
theorem start_mem_frame_range_inclusive (s e : Nat) : s ∈ frame_range_inclusive s e := by
  unfold frame_range_inclusive
  exact List.mem_range'.mpr ⟨0, by omega, by omega⟩

/-- The upper end of an inclusive frame range is a member when the ends are
aligned with each other. -/
theorem end_mem_frame_range_inclusive {s e : Nat} (hle : s ≤ e) (hd : 4096 ∣ e - s) :
    e ∈ frame_range_inclusive s e := by
  unfold frame_range_inclusive
  refine List.mem_range'.mpr ⟨(e - s) / 4096, by omega, ?_⟩
  rw [Nat.mul_div_cancel' hd]
  omega

/-- Inclusive frame ranges are duplicate-free. -/
theorem frame_range_inclusive_nodup (s e : Nat) : (frame_range_inclusive s e).Nodup :=
  List.nodup_range' _ _ 4096 (by norm_num)

/-- Inversion of map_physical_region: the frames of the inclusive range were
mapped and the returned mapping records start, length, and mapped length. -/
theorem map_physical_region_inv {s s' : HandlerState} {p n : Nat} {m : PhysicalMapping}
    (h : map_physical_region s p n = some (s', m)) :
    map_frames s (frame_range_inclusive (frame_containing p)
        (frame_containing (p + n))) = some s' ∧
      m = ⟨frame_containing p, n,
        frame_containing (p + n) + 0x1000 - frame_containing p⟩ := by
  unfold map_physical_region at h
  dsimp only at h
  cases hm : map_frames s (frame_range_inclusive (frame_containing p)
      (frame_containing (p + n))) with
  | none => rw [hm] at h; exact absurd h (by simp)
  | some t =>
    rw [hm] at h
    dsimp only at h
    cases h
    exact ⟨rfl, rfl⟩

/-- The page list walked by unmap_physical_region for a mapping produced by
map_physical_region is exactly the inclusive frame range that was mapped. -/
theorem unmap_page_list_eq (p n : Nat) :
    List.range' (frame_containing p)
        ((frame_containing (p + n) + 0x1000 - frame_containing p) / 4096) 4096 =
      frame_range_inclusive (frame_containing p) (frame_containing (p + n)) := by
  unfold frame_range_inclusive
  congr 1
  have h1 : frame_containing p ≤ frame_containing (p + n) :=
    frame_containing_mono (Nat.le_add_right p n)
  have h2 : frame_containing (p + n) + 0x1000 - frame_containing p =
      (frame_containing (p + n) - frame_containing p) + 4096 := by omega
  rw [h2, Nat.add_div_right _ (by norm_num)]

/-- C7: when two byte ranges mapped through the registry share exactly their
trailing and leading frame, that frame ends with reference count 2, and
releasing the first range leaves it registered with count 1 and still
identity-mapped. -/
theorem c7_overlap_refcount (s0 : HandlerState) (p1 n1 p2 n2 : Nat)
    (hinv : RegInv s0)
    (hfresh : s0.mapping_refs (frame_containing p2) = none)
    (hshare : frame_containing (p1 + n1) = frame_containing p2)
    (s1 s2 s3 : HandlerState) (m1 m2 : PhysicalMapping)
    (h1 : map_physical_region s0 p1 n1 = some (s1, m1))
    (h2 : map_physical_region s1 p2 n2 = some (s2, m2))
    (h3 : unmap_physical_region s2 m1 = some s3) :
    (∃ g, s2.mapping_refs (frame_containing p2) = some (2, g)) ∧
    (∃ g fl, s3.mapping_refs (frame_containing p2) = some (1, g) ∧
      s3.ctx.mapper (frame_containing p2) = some (frame_containing p2, fl)) := by
  obtain ⟨hmf1, hm1eq⟩ := map_physical_region_inv h1
  obtain ⟨hmf2, hm2eq⟩ := map_physical_region_inv h2
  have hle : frame_containing p1 ≤ frame_containing (p1 + n1) :=
    frame_containing_mono (Nat.le_add_right p1 n1)
  have hdvd : 4096 ∣ frame_containing (p1 + n1) - frame_containing p1 :=
    Nat.dvd_sub' (frame_containing_dvd _) (frame_containing_dvd _)
  have hcount1 : (frame_range_inclusive (frame_containing p1)
      (frame_containing (p1 + n1))).count (frame_containing p2) = 1 := by
    rw [← hshare]
    exact List.count_eq_one_of_mem (frame_range_inclusive_nodup _ _)
      (end_mem_frame_range_inclusive hle hdvd)
  have hcount2 : (frame_range_inclusive (frame_containing p2)
      (frame_containing (p2 + n2))).count (frame_containing p2) = 1 :=
    List.count_eq_one_of_mem (frame_range_inclusive_nodup _ _)
      (start_mem_frame_range_inclusive _ _)
  have hr0 : regCount s0 (frame_containing p2) = 0 := by
    unfold regCount
    rw [hfresh]
  obtain ⟨hinv1, hcnt1⟩ := map_frames_spec hmf1 hinv
  obtain ⟨hinv2, hcnt2⟩ := map_frames_spec hmf2 hinv1
  have hr2 : regCount s2 (frame_containing p2) = 2 := by
    rw [(hcnt2 _).1, (hcnt1 _).1, hr0, hcount1, hcount2]
  have hunf : unmap_frames s2 (frame_range_inclusive (frame_containing p1)
      (frame_containing (p1 + n1))) = some s3 := by
    have := h3
    unfold unmap_physical_region at this
    rw [hm1eq] at this
    dsimp only at this
    rw [unmap_page_list_eq p1 n1] at this
    exact this
  obtain ⟨hinv3, hcnt3⟩ := unmap_frames_spec hunf hinv2
  have hr3 : regCount s3 (frame_containing p2) = 1 := by
    rw [hcnt3, hr2, hcount1]
  obtain ⟨g2, hg2⟩ := regCount_entry hr2 (by norm_num)
  obtain ⟨g3, hg3⟩ := regCount_entry hr3 (by norm_num)
  obtain ⟨-, -, fl, hfl⟩ := hinv3 _ _ _ hg3
  exact ⟨⟨g2, hg2⟩, ⟨g3, fl, hg3, hfl⟩⟩

/-- Registry state for the c7 witness: empty registry over two Reserved
regions (the second region makes the buggy classifier accept frame 0x1000). -/
def c7s0 : HandlerState :=
  ⟨⟨fun _ => none,
    ⟨[⟨0, 1, MemoryRegionType.Reserved⟩, ⟨1, 4, MemoryRegionType.Reserved⟩],
      [zero_block], 0⟩⟩, fun _ => none⟩

/-- Witness for c7_overlap_refcount: ranges 0x0+0x1000 and 0x1000+0x0 share
frame 0x1000; after both maps its count is 2, after releasing the first
range it is 1 and the frame is still mapped. -/
theorem c7_witness :
    ∃ s1 m1 s2 m2 s3,
      map_physical_region c7s0 0 4096 = some (s1, m1) ∧
      map_physical_region s1 4096 0 = some (s2, m2) ∧
      unmap_physical_region s2 m1 = some s3 ∧
      ((∃ g, s2.mapping_refs (frame_containing 4096) = some (2, g)) ∧
       (∃ g fl, s3.mapping_refs (frame_containing 4096) = some (1, g) ∧
         s3.ctx.mapper (frame_containing 4096) = some (frame_containing 4096, fl))) := by
  refine ⟨_, _, _, _, _, rfl, rfl, rfl, ?_⟩
  exact c7_overlap_refcount c7s0 0 4096 4096 0 (by intro f rc g h; simp [c7s0] at h) rfl rfl
    _ _ _ _ _ rfl rfl rfl

/-- The bootstrap allocator (frame_allocator/bootstrap.rs): the memory map,
the running index into the usable-frame iterator, and the per-region count
of consumed frames (`used: [u64; 64]`, modelled as a function). -/
structure BootStrapAllocator where
  memory_map : List MemoryRegion
  next : Nat
  used : Nat → Nat

/-- Translation of `BootStrapAllocator::usable_frames`: every frame of every
Usable region paired with the region's index in the memory map.  The source
steps the byte range `start_addr()..end_addr()` by 4096 and aligns each
address down; since the bootloader map stores frame-aligned bounds this is
the frame-number range of the region, used here directly. -/
def bootstrap_usable_frames (mm : List MemoryRegion) : List (Nat × Nat) :=
  (mm.enum.filter fun p => decide (p.2.region_type = MemoryRegionType.Usable)).flatMap
    fun p => (List.range' p.2.start_frame_number
      (p.2.end_frame_number - p.2.start_frame_number)).map fun fr => (fr, p.1)

/-- Translation of `BootStrapAllocator::allocate_frame`: take the nth usable
frame, advance, and count it against its region (`used[block] += 1`; an
index at or beyond 64 is the array-bounds panic, modelled as `none`). -/
def BootStrapAllocator.allocate_frame (b : BootStrapAllocator) :
    Option (Nat × BootStrapAllocator) :=
  match (bootstrap_usable_frames b.memory_map)[b.next]? with
  | none => none
  | some fb =>
    if fb.2 < 64 then
      some (fb.1, ⟨b.memory_map, b.next + 1,
        Function.update b.used fb.2 (b.used fb.2 + 1)⟩)
    else none

/-- A run of n bootstrap allocations, all of which must succeed (every call
made during init is followed by an `expect`). -/
def bootstrap_run : BootStrapAllocator → Nat → Option BootStrapAllocator
  | b, 0 => some b
  | b, n + 1 =>
    match b.allocate_frame with
    | none => none
    | some r => bootstrap_run r.2 n

/-- Marking loop `for i in start..(start + size) { mark_used i }` of init. -/
def mark_range : GlobalFrameAllocator → Nat → Nat → Option GlobalFrameAllocator
  | a, _, 0 => some a
  | a, start, n + 1 =>
    match a.mark_used start with
    | none => none
    | some a' => mark_range a' (start + 1) n

/-- Replay loop of init: for every array slot with a nonzero count, mark the
first `used[block]` frames of that region as used (indexing the memory map
out of range is a panic). -/
def replay_list (b : BootStrapAllocator) :
    GlobalFrameAllocator → List Nat → Option GlobalFrameAllocator
  | a, [] => some a
  | a, blk :: rest =>
    if b.used blk ≠ 0 then
      match a.memory_map[blk]? with
      | none => none
      | some r =>
        match mark_range a r.start_frame_number (b.used blk) with
        | none => none
        | some a' => replay_list b a' rest
    else replay_list b a rest

/-- Second marking loop of init: mark every frame of every region that is
not Usable, Reserved, AcpiReclaimable or FrameZero as used. -/
def mark_unusable : GlobalFrameAllocator → List MemoryRegion → Option GlobalFrameAllocator
  | a, [] => some a
  | a, r :: rest =>
    match r.region_type with
    | MemoryRegionType.Usable | MemoryRegionType.Reserved
    | MemoryRegionType.AcpiReclaimable | MemoryRegionType.FrameZero =>
      mark_unusable a rest
    | _ =>
      match mark_range a r.start_frame_number
          (r.end_frame_number - r.start_frame_number) with
      | none => none
      | some a' => mark_unusable a' rest

/-- Number of bitmap blocks init allocates: the ceiling division of the last
region's end frame by BITS_PER_BITMAP. -/
def required_bitmaps (mm : List MemoryRegion) : Nat :=
  match mm.getLast? with
  | none => 0
  | some r => (r.end_frame_number + BITS_PER_BITMAP - 1) / BITS_PER_BITMAP

/-- Translation of `GlobalFrameAllocator::init`.  The real init consumes one
bootstrap frame per bitmap block plus however many frames the external
mapper's map_to requests for intermediate page tables while mapping them;
the total is modelled as required_bitmaps mm + pt_frames with pt_frames
arbitrary.  After the bootstrap phase the consumed counts are replayed into
the fresh bitmap chain and the non-usable regions are marked. -/
def GlobalFrameAllocator.init (mm : List MemoryRegion) (pt_frames : Nat) :
    Option GlobalFrameAllocator :=
  match mm.getLast? with
  | none => none
  | some _ =>
    match bootstrap_run ⟨mm, 0, fun _ => 0⟩ (required_bitmaps mm + pt_frames) with
    | none => none
    | some b =>
      match replay_list b ⟨mm, List.replicate (required_bitmaps mm) zero_block, 0⟩
          (List.range 64) with
      | none => none
      | some a1 => mark_unusable a1 mm

/-- The frames handed out by the first n bootstrap allocations. -/
def bootstrap_consumed (mm : List MemoryRegion) (n : Nat) : List Nat :=
  ((bootstrap_usable_frames mm).take n).map Prod.fst

/-- A prefix of a step-one range is a range. -/
theorem take_range' : ∀ (m s n : Nat),
    List.take n (List.range' s m) = List.range' s (min n m) := by
  intro m
  induction m with
  | zero => intro s n; simp
  | succ m ih =>
    intro s n
    cases n with
    | zero => simp
    | succ n =>
      rw [List.range'_succ, List.take_succ_cons, ih (s + 1) n, Nat.succ_min_succ,
        List.range'_succ]

/-- Effect of a bootstrap run: the map is unchanged, the cursor advanced by
n, every consumed tag is below 64, and each slot's count grew by the number
of consumed frames tagged with it. -/
theorem bootstrap_run_spec :
    ∀ {n : Nat} {b b' : BootStrapAllocator}, bootstrap_run b n = some b' →
      b'.memory_map = b.memory_map ∧ b'.next = b.next + n ∧
      (∀ fb ∈ ((bootstrap_usable_frames b.memory_map).drop b.next).take n, fb.2 < 64) ∧
      ∀ blk, b'.used blk = b.used blk +
        ((((bootstrap_usable_frames b.memory_map).drop b.next).take n).map
          Prod.snd).count blk := by
  intro n
  induction n with
  | zero =>
    intro b b' h
    rw [bootstrap_run] at h
    cases h
    exact ⟨rfl, rfl, by simp, by simp⟩
  | succ n ih =>
    intro b b' h
    rw [bootstrap_run] at h
    cases ha : b.allocate_frame with
    | none => rw [ha] at h; exact absurd h (by simp)
    | some r =>
      rw [ha] at h
      dsimp only at h
      unfold BootStrapAllocator.allocate_frame at ha
      cases hg : (bootstrap_usable_frames b.memory_map)[b.next]? with
      | none => rw [hg] at ha; exact absurd ha (by simp)
      | some fb =>
        rw [hg] at ha
        dsimp only at ha
        by_cases hlt : fb.2 < 64
        · rw [if_pos hlt] at ha
          cases ha
          obtain ⟨hmm, hnext, htag, hused⟩ := ih h
          have hlen : b.next < (bootstrap_usable_frames b.memory_map).length :=
            (List.getElem?_eq_some.mp hg).1
          have hdrop : (bootstrap_usable_frames b.memory_map).drop b.next =
              fb :: (bootstrap_usable_frames b.memory_map).drop (b.next + 1) := by
            rw [List.drop_eq_getElem_cons hlen]
            congr
            exact (List.getElem?_eq_some.mp hg).2
          rw [hdrop, List.take_succ_cons]
          refine ⟨hmm, by dsimp only at hnext ⊢; omega, ?_, ?_⟩
          · intro x hx
            rcases List.mem_cons.mp hx with rfl | hx2
            · exact hlt
            · exact htag x (by simpa using hx2)
          · intro blk
            rw [hused blk]
            dsimp only
            simp only [List.map_cons, List.count_cons]
            by_cases hbf : fb.2 = blk
            · rw [Function.update_apply]
              simp [hbf]
              omega
            · rw [Function.update_apply, if_neg (fun hc : blk = fb.2 => hbf hc.symm)]
              simp [hbf]
        · rw [if_neg hlt] at ha
          exact absurd ha (by simp)

/-- Effect of the marking loop: the memory map is unchanged, set bits stay
set, and every index of the marked interval ends up set. -/
theorem mark_range_spec :
    ∀ {c : Nat} {a a' : GlobalFrameAllocator} {start : Nat},
      mark_range a start c = some a' →
      a'.memory_map = a.memory_map ∧
      (∀ j, a.is_used j = some true → a'.is_used j = some true) ∧
      ∀ j, start ≤ j → j < start + c → a'.is_used j = some true := by
  intro c
  induction c with
  | zero =>
    intro a a' start h
    rw [mark_range] at h
    cases h
    exact ⟨rfl, fun j hj => hj, fun j h1 h2 => absurd h2 (by omega)⟩
  | succ c ih =>
    intro a a' start h
    rw [mark_range] at h
    cases hm : a.mark_used start with
    | none => rw [hm] at h; exact absurd h (by simp)
    | some a1 =>
      rw [hm] at h
      dsimp only at h
      obtain ⟨hmm1, hmono1, hmark1⟩ := ih h
      refine ⟨hmm1.trans (mark_used_fields hm).1, ?_, ?_⟩
      · intro j hj
        exact hmono1 j (mark_used_mono hm j hj)
      · intro j h1 h2
        by_cases hjs : j = start
        · subst hjs
          exact hmono1 j (mark_used_is_used_self hm)
        · exact hmark1 j (by omega) (by omega)

/-- Effect of the replay loop: the memory map is unchanged, set bits stay
set, and for every listed slot with a nonzero count the first `used` frames
of its region end up marked. -/
theorem replay_list_spec {b : BootStrapAllocator} :
    ∀ {l : List Nat} {a a' : GlobalFrameAllocator}, replay_list b a l = some a' →
      a'.memory_map = a.memory_map ∧
      (∀ j, a.is_used j = some true → a'.is_used j = some true) ∧
      ∀ blk ∈ l, b.used blk ≠ 0 → ∀ r, a.memory_map[blk]? = some r →
        ∀ j, r.start_frame_number ≤ j → j < r.start_frame_number + b.used blk →
          a'.is_used j = some true := by
  intro l
  induction l with
  | nil =>
    intro a a' h
    rw [replay_list] at h
    cases h
    exact ⟨rfl, fun j hj => hj, by simp⟩
  | cons blk0 rest ih =>
    intro a a' h
    rw [replay_list] at h
    by_cases hz : b.used blk0 ≠ 0
    · rw [if_pos hz] at h
      cases hr0 : a.memory_map[blk0]? with
      | none => rw [hr0] at h; exact absurd h (by simp)
      | some r0 =>
        rw [hr0] at h
        dsimp only at h
        cases hmk : mark_range a r0.start_frame_number (b.used blk0) with
        | none => rw [hmk] at h; exact absurd h (by simp)
        | some a1 =>
          rw [hmk] at h
          dsimp only at h
          obtain ⟨hmm2, hmono2, hmark2⟩ := ih h
          obtain ⟨hmm1, hmono1, hmark1⟩ := mark_range_spec hmk
          refine ⟨hmm2.trans hmm1, fun j hj => hmono2 j (hmono1 j hj), ?_⟩
          intro blk hblk hbz r hr j hj1 hj2
          rcases List.mem_cons.mp hblk with rfl | hblk2
          · obtain rfl : r = r0 := by
              rw [hr0] at hr
              exact (Option.some.injEq _ _ ▸ hr).symm ▸ rfl
            exact hmono2 j (hmark1 j hj1 hj2)
          · exact hmark2 blk hblk2 hbz r (by rw [hmm1]; exact hr) j hj1 hj2
    · rw [if_neg hz] at h
      obtain ⟨hmm2, hmono2, hmark2⟩ := ih h
      refine ⟨hmm2, hmono2, ?_⟩
      intro blk hblk hbz r hr j hj1 hj2
      rcases List.mem_cons.mp hblk with rfl | hblk2
      · exact absurd hbz (by simpa using hz)
      · exact hmark2 blk hblk2 hbz r hr j hj1 hj2

/-- The final marking pass only adds marks. -/
theorem mark_unusable_mono :
    ∀ {l : List MemoryRegion} {a a' : GlobalFrameAllocator}, mark_unusable a l = some a' →
      ∀ j, a.is_used j = some true → a'.is_used j = some true := by
  intro l
  induction l with
  | nil =>
    intro a a' h
    rw [mark_unusable] at h
    cases h
    exact fun j hj => hj
  | cons r rest ih =>
    intro a a' h
    rw [mark_unusable] at h
    cases hty : r.region_type <;> rw [hty] at h <;> dsimp only at h
    case Usable => exact ih h
    case Reserved => exact ih h
    case AcpiReclaimable => exact ih h
    case FrameZero => exact ih h
    all_goals {
      cases hmk : mark_range a r.start_frame_number
          (r.end_frame_number - r.start_frame_number) with
      | none => rw [hmk] at h; exact absurd h (by simp)
      | some a1 =>
        rw [hmk] at h
        intro j hj
        exact ih h j ((mark_range_spec hmk).2.1 j hj)
    }

/-- The frames of one Usable region paired with that region's index: one
group of the bootstrap usable-frame iterator. -/
def tagged_group (p : Nat × MemoryRegion) : List (Nat × Nat) :=
  (List.range' p.2.start_frame_number
    (p.2.end_frame_number - p.2.start_frame_number)).map fun fr => (fr, p.1)

/-- The bootstrap iterator is the concatenation of the per-region groups. -/
theorem bootstrap_usable_frames_eq (mm : List MemoryRegion) :
    bootstrap_usable_frames mm =
      (mm.enum.filter fun p =>
        decide (p.2.region_type = MemoryRegionType.Usable)).flatMap tagged_group := rfl

/-- Tags of a prefix of one group are that group's region index. -/
theorem tagged_group_take_snd (p : Nat × MemoryRegion) (n : Nat) :
    ((tagged_group p).take n).map Prod.snd =
      List.replicate (min n (p.2.end_frame_number - p.2.start_frame_number)) p.1 := by
  unfold tagged_group
  rw [← List.map_take, take_range', List.map_map]
  have hc : (Prod.snd ∘ fun fr : Nat => (fr, p.1)) = fun _ => p.1 := rfl
  rw [hc, List.map_const', List.length_range']

/-- A member of a prefix of one group carries the group's tag and lies in the
first min n len frames of the region. -/
theorem mem_tagged_group_take {p : Nat × MemoryRegion} {n : Nat} {fb : Nat × Nat}
    (h : fb ∈ (tagged_group p).take n) :
    fb.2 = p.1 ∧ p.2.start_frame_number ≤ fb.1 ∧
      fb.1 < p.2.start_frame_number +
        min n (p.2.end_frame_number - p.2.start_frame_number) := by
  unfold tagged_group at h
  rw [← List.map_take, take_range'] at h
  obtain ⟨fr, hfr, rfl⟩ := List.mem_map.mp h
  obtain ⟨i, hi, rfl⟩ := List.mem_range'.mp hfr
  exact ⟨rfl, by omega, by omega⟩

/-- Every element of the flattened groups carries the tag of some group. -/
theorem tag_mem_flatMap {ps : List (Nat × MemoryRegion)} {fb : Nat × Nat}
    (h : fb ∈ ps.flatMap tagged_group) : fb.2 ∈ ps.map Prod.fst := by
  obtain ⟨p, hp, hx⟩ := List.mem_flatMap.mp h
  unfold tagged_group at hx
  obtain ⟨fr, -, rfl⟩ := List.mem_map.mp hx
  exact List.mem_map.mpr ⟨p, hp, rfl⟩

/-- Key prefix property of the grouped iterator: a consumed element lies
among the first k frames of its own region, where k is the number of
consumed elements carrying that region's tag. -/
theorem grouped_take_bound :
    ∀ {ps : List (Nat × MemoryRegion)}, (ps.map Prod.fst).Nodup →
      ∀ {n : Nat} {fb : Nat × Nat}, fb ∈ (ps.flatMap tagged_group).take n →
        ∃ r, (fb.2, r) ∈ ps ∧ r.start_frame_number ≤ fb.1 ∧
          fb.1 < r.start_frame_number +
            (((ps.flatMap tagged_group).take n).map Prod.snd).count fb.2 := by
  intro ps
  induction ps with
  | nil => intro _ n fb h; simp at h
  | cons p rest ih =>
    intro hnd n fb h
    have hsplit : ((p :: rest).flatMap tagged_group).take n =
        (tagged_group p).take n ++
          (rest.flatMap tagged_group).take (n - (tagged_group p).length) := by
      rw [List.flatMap_cons, List.take_append_eq_append_take]
    rw [hsplit] at h
    rw [List.map_cons] at hnd
    obtain ⟨hp1, hnd'⟩ := List.nodup_cons.mp hnd
    rcases List.mem_append.mp h with h1 | h2
    · obtain ⟨htag, hle, hlt⟩ := mem_tagged_group_take h1
      refine ⟨p.2, ?_, hle, ?_⟩
      · rw [htag]
        exact List.mem_cons_self p rest
      · rw [hsplit, List.map_append, List.count_append, htag, tagged_group_take_snd,
          List.count_replicate_self]
        omega
    · obtain ⟨r, hr, hle, hlt⟩ := ih hnd' h2
      refine ⟨r, List.mem_cons_of_mem p hr, hle, ?_⟩
      have htag : fb.2 ∈ rest.map Prod.fst :=
        tag_mem_flatMap (List.mem_of_mem_take h2)
      have hne : p.1 ≠ fb.2 := fun hc => hp1 (hc ▸ htag)
      rw [hsplit, List.map_append, List.count_append, tagged_group_take_snd,
        List.count_replicate, if_neg (by simpa using hne)]
      omega

/-- Region indices of the filtered enumeration are duplicate-free. -/
theorem usable_enum_nodup (mm : List MemoryRegion) :
    ((mm.enum.filter fun p =>
      decide (p.2.region_type = MemoryRegionType.Usable)).map Prod.fst).Nodup :=
  List.Nodup.sublist ((List.filter_sublist _).map Prod.fst)
    (List.nodup_enum_map_fst mm)

/-- Membership in the filtered enumeration gives the indexed region and its
usability. -/
theorem usable_enum_mem_spec {mm : List MemoryRegion} {b : Nat} {r : MemoryRegion}
    (h : (b, r) ∈ mm.enum.filter fun p =>
      decide (p.2.region_type = MemoryRegionType.Usable)) :
    mm[b]? = some r ∧ r.region_type = MemoryRegionType.Usable := by
  obtain ⟨h1, h2⟩ := List.mem_filter.mp h
  exact ⟨List.mem_enum_iff_getElem?.mp h1, by simpa using h2⟩

/-- C5: every frame the bootstrap allocator consumed while init set up the
bitmap storage (including the frames the external mapper drew for
intermediate page tables) is marked used in the resulting allocator's
bitmap the moment init returns. -/
theorem c5_bootstrap_consistency (mm : List MemoryRegion) (pt_frames : Nat)
    (a' : GlobalFrameAllocator)
    (h : GlobalFrameAllocator.init mm pt_frames = some a') :
    ∀ f ∈ bootstrap_consumed mm (required_bitmaps mm + pt_frames),
      a'.is_used f = some true := by
  intro f hf
  unfold GlobalFrameAllocator.init at h
  cases hlast : mm.getLast? with
  | none => rw [hlast] at h; exact absurd h (by simp)
  | some lastR =>
    rw [hlast] at h
    dsimp only at h
    cases hbr : bootstrap_run ⟨mm, 0, fun _ => 0⟩ (required_bitmaps mm + pt_frames) with
    | none => rw [hbr] at h; exact absurd h (by simp)
    | some b =>
      rw [hbr] at h
      dsimp only at h
      cases hrl : replay_list b ⟨mm, List.replicate (required_bitmaps mm) zero_block, 0⟩
          (List.range 64) with
      | none => rw [hrl] at h; exact absurd h (by simp)
      | some a1 =>
        rw [hrl] at h
        dsimp only at h
        obtain ⟨hmmb, hnextb, htags, hused⟩ := bootstrap_run_spec hbr
        obtain ⟨fb, hfb, rfl⟩ := List.mem_map.mp hf
        obtain ⟨r, hrps, hle, hlt⟩ := grouped_take_bound (usable_enum_nodup mm)
          (bootstrap_usable_frames_eq mm ▸ hfb)
        have hcnt : b.used fb.2 =
            (((bootstrap_usable_frames mm).take
              (required_bitmaps mm + pt_frames)).map Prod.snd).count fb.2 := by
          have hu := hused fb.2
          simpa using hu
        obtain ⟨hget, -⟩ := usable_enum_mem_spec hrps
        have hblk64 : fb.2 < 64 := htags fb (by simpa using hfb)
        have hlt' : fb.1 < r.start_frame_number + b.used fb.2 := by
          rw [hcnt]
          rw [bootstrap_usable_frames_eq]
          exact hlt
        have hz : b.used fb.2 ≠ 0 := by omega
        have hmark := (replay_list_spec hrl).2.2 fb.2 (List.mem_range.mpr hblk64) hz r
          hget fb.1 hle hlt'
        exact mark_unusable_mono h fb.1 hmark

/-- Witness for c5_bootstrap_consistency: one Usable region of five frames,
one page-table frame; the two consumed frames are marked in the result. -/
theorem c5_witness :
    ∃ a', GlobalFrameAllocator.init [⟨0, 5, MemoryRegionType.Usable⟩] 1 = some a' ∧
      ∀ f ∈ bootstrap_consumed [⟨0, 5, MemoryRegionType.Usable⟩]
          (required_bitmaps [⟨0, 5, MemoryRegionType.Usable⟩] + 1),
        a'.is_used f = some true := by
  refine ⟨_, rfl, ?_⟩
  exact c5_bootstrap_consistency [⟨0, 5, MemoryRegionType.Usable⟩] 1 _ rfl
